import Mathlib

/-!
# Verification of the texture-storage annotation pass

Shallow embedding of `src/relay/transforms/annotate_texture_storage.cc`:
the storage-scope analysis (`StorageInfo`), the scope-fit evaluator
(`StorageInfo::Scope`), the capability matcher
(`StorageInfo::SupportsTextureStorage`), the legalization and completion
steps (`StorageInfo::LegalizeProducerStorage`, `StorageInfo::GetStorageMap`),
the device enumerator / registry dispatch (`CollectStorageInfo`) and the
graph rewriter (`RewriteVDStorageScopes`, `AnnotateMemoryScopeExpr`).

Node identity (C++ pointer identity) is modelled by an explicit `Nat` id on
every expression node.  The C++ `unordered_map`s keyed by `ExprNode*` become
association lists keyed by the id, in insertion order (iteration order of an
`unordered_map` is unspecified; where a claim depends on iteration order this
is noted at the theorem).  `ICHECK` failures and null-pointer dereferences
(`as<IntImmNode>()` on a non-literal followed by `->value`) are modelled by
`Except`/`Option` error results.
-/

namespace AnnotateTextureStorage

/-! ## String helpers: `std::string::find` -/

/-- `pat` is a prefix of `l` (on character lists). -/
def charsHavePrefix : List Char → List Char → Bool
  | _, [] => true
  | [], _ :: _ => false
  | c :: cs, p :: ps => if c = p then charsHavePrefix cs ps else false

/-- `pat` occurs somewhere in `l` (on character lists). -/
def charsContain : List Char → List Char → Bool
  | [], pat => charsHavePrefix [] pat
  | c :: cs, pat => charsHavePrefix (c :: cs) pat || charsContain cs pat

/-- `s.find(pat) != std::string::npos`: `pat` occurs somewhere in `s`. -/
def strContains (s pat : String) : Bool :=
  charsContain s.data pat.data

/-- `s.find(pat) == 0`: `pat` occurs at position 0 of `s`. -/
def strStartsWith (s pat : String) : Bool :=
  charsHavePrefix s.data pat.data

/-! ## Association lists standing for the C++ maps keyed by node identity -/

/-- `m.find(k)` on a map modelled as an association list. -/
def lookupA {α : Type} (m : List (Nat × α)) (k : Nat) : Option α :=
  match m with
  | [] => none
  | (k', v) :: rest => if k = k' then some v else lookupA rest k

/-- `m[k] = v`: update the entry if the key is present, append otherwise. -/
def setA {α : Type} (m : List (Nat × α)) (k : Nat) (v : α) : List (Nat × α) :=
  match m with
  | [] => [(k, v)]
  | (k', v') :: rest => if k = k' then (k, v) :: rest else (k', v') :: setA rest k v

/-- `m.erase(k)`. -/
def eraseA {α : Type} (m : List (Nat × α)) (k : Nat) : List (Nat × α) :=
  match m with
  | [] => []
  | (k', v') :: rest => if k = k' then rest else (k', v') :: eraseA rest k

/-- `m[k].push_back(v)` on a map of vectors (creates an empty vector first if
the key is absent, as `operator[]` does). -/
def pushA {α : Type} (m : List (Nat × List α)) (k : Nat) (v : α) : List (Nat × List α) :=
  match m with
  | [] => [(k, [v])]
  | (k', l) :: rest => if k = k' then (k', l ++ [v]) :: rest else (k', l) :: pushA rest k v

/-! ## Shape dimensions, targets and virtual devices -/

/-- A TIR `PrimExpr` appearing as a tensor-shape dimension: either an
`IntImmNode` literal or some other (symbolic) expression, for which
`as<IntImmNode>()` yields `nullptr`. -/
inductive PrimExpr where
  | intImm (v : Int)
  | sym (name : String)
deriving DecidableEq

/-- `e.as<IntImmNode>()`: `some` of the value for a literal, `none` otherwise. -/
def PrimExpr.asIntImm : PrimExpr → Option Int
  | .intImm v => some v
  | .sym _ => none

/-- The slice of a `Target` read by this pass: its kind name and the
`"device"` / `"texture_spatial_limit"` attributes. -/
structure Target where
  kindName : String
  device : Option String
  textureSpatialLimit : Option Int
deriving DecidableEq

/-- The slice of a `VirtualDevice` read by this pass.  `fullyUnconstrained`
models comparison with `VirtualDevice::FullyUnconstrained()`. -/
structure VirtualDevice where
  deviceType : Int
  virtualDeviceId : Int
  target : Target
  memoryScope : String
  fullyUnconstrained : Bool
deriving DecidableEq

/-! ## The scope-fit evaluator `StorageInfo::Scope` -/

/-- `diffs[k] = v` on the `std::map<int, std::string>` of candidate splits:
overwrites the value when the key is already present, inserts otherwise. -/
def insertDiff (m : List (Int × String)) (k : Int) (v : String) : List (Int × String) :=
  match m with
  | [] => [(k, v)]
  | (k', v') :: rest => if k = k' then (k, v) :: rest else (k', v') :: insertDiff rest k v

/-- `diffs.begin()` of the ordered `std::map`: the entry with the least key
(keys produced by `insertDiff` are pairwise distinct). -/
def minEntry : List (Int × String) → Option (Int × String)
  | [] => none
  | kv :: rest =>
    match minEntry rest with
    | none => some kv
    | some kv' => if kv.1 ≤ kv'.1 then some kv else some kv'

/-- The core of `StorageInfo::Scope` once the four leading dimensions have
been extracted as integer literals `a0..a3` and the spatial limit is known:
builds the three candidate splits and reads off the least-difference entry. -/
def scopeFromDims (a0 a1 a2 a3 limit : Int) : String :=
  let d3l := a0 * a1 * a2
  let d3r := a3
  let diff3 := if d3l > d3r then d3l - d3r else d3r - d3l
  let diffsA := if d3l < limit ∧ d3r < limit then insertDiff [] diff3 "" else []
  let d2l := a0 * a1
  let d2r := a2 * a3
  let diff2 := if d2l > d2r then d2l - d2r else d2r - d2l
  let diffsB := if d2l < limit ∧ d2r < limit then insertDiff diffsA diff2 "nhwc" else diffsA
  let d1l := a0
  let d1r := a1 * a2 * a3
  let diff1 := if d1l > d1r then d1l - d1r else d1r - d1l
  let diffsC := if d1l < limit ∧ d1r < limit then insertDiff diffsB diff1 "weight" else diffsB
  match minEntry diffsC with
  | some kv => if kv.2 = "" then "global.texture" else "global.texture-" ++ kv.2
  | none => "global"

/-- `StorageInfo::Scope(shape, vd)`.  A `none` result models the undefined
behaviour of dereferencing the null result of `as<IntImmNode>()` on a
non-literal dimension; note that `shape[4]` is only dereferenced when the
virtual device is constrained and the shape is 5-d, and `shape[0..3]` only
when additionally `shape[4]` is the literal `4`. -/
def Scope (shape : List PrimExpr) (vd : VirtualDevice) : Option String :=
  if vd.fullyUnconstrained = false ∧ shape.length = 5 then
    match (shape.getD 4 (.sym "")).asIntImm with
    | none => none
    | some v4 =>
      if v4 = 4 then
        match (shape.getD 0 (.sym "")).asIntImm, (shape.getD 1 (.sym "")).asIntImm,
              (shape.getD 2 (.sym "")).asIntImm, (shape.getD 3 (.sym "")).asIntImm with
        | some a0, some a1, some a2, some a3 =>
          some (scopeFromDims a0 a1 a2 a3 (vd.target.textureSpatialLimit.getD 16384))
        | _, _, _, _ => none
      else some "global"
  else some "global"

/-! ## The capability matcher `StorageInfo::SupportsTextureStorage` -/

/-- The attribute bag of a call, as inspected by the capability matcher via
`call->attrs.as<...>()`. -/
inductive CallAttrs where
  | conv2d (dataLayout kernelLayout : String)
  | conv2dWinograd (dataLayout kernelLayout : String)
  | globalPool2d (layout : String)
  | maxPool2d (layout : String)
  | avgPool2d (layout : String)
  | none
deriving DecidableEq

/-- `StorageInfo::SupportsTextureStorage`. -/
def SupportsTextureStorage (attrs : CallAttrs) : Bool :=
  match attrs with
  | .conv2d dataLayout kernelLayout =>
    if dataLayout = "NCHW4c" ∧ kernelLayout = "OIHW4o" then true
    else if dataLayout = "NHWC4c" ∧
        (kernelLayout = "HWOI4o" ∨ kernelLayout = "HWIO4o" ∨ kernelLayout = "OIHW4o") then true
    else false
  | .conv2dWinograd dataLayout kernelLayout =>
    if (dataLayout = "NCHW4c" ∨ dataLayout = "NHWC4c") ∧
        (kernelLayout = "OIHW4o" ∨ kernelLayout = "HWIO4o") then true
    else false
  | .globalPool2d layout => layout = "NCHW4c"
  | .maxPool2d layout => layout = "NCHW4c"
  | .avgPool2d layout => layout = "NCHW4c"
  | .none => false

/-! ## Demand unification and output-uniformity helpers -/

/-- `StorageInfo::GetConsumerScope`. -/
def GetConsumerScope (consumerScopes : List String) : String :=
  if consumerScopes.length = 0 then "global"
  else if consumerScopes.all (fun sc => strContains sc "global.texture") then "global.texture"
  else "global"

/-- `StorageInfo::CanConsumeTextures`. -/
def CanConsumeTextures (consumerScopes : List String) : Bool :=
  consumerScopes.any (fun sc => strStartsWith sc "global.texture")

/-- `StorageInfo::HasMixedStorageOutputs` applied to the scope vector of a
producer present in `storage_scope_`: compares every entry against entry 0. -/
def hasMixedList : List String → Bool
  | [] => false
  | r :: rest => rest.any (fun sc => sc ≠ r)

/-! ## Spec-side restatement of the fit rule (for the refinement claim C3)

The spec describes the evaluator as: form three candidate 2-D reshapes,
keep those with both sides strictly below the limit, and pick the eligible
candidate of least `|rows − cols|`, a tie being won by the later-evaluated
candidate.  The following definitions transcribe those words; C3 compares
them with `Scope`, which was transcribed from the source. -/

/-- A candidate 2-D reshape: rows, columns and its layout label. -/
structure Cand where
  rows : Int
  cols : Int
  label : String
deriving DecidableEq

/-- `|rows − cols|` of a candidate. -/
def candDiff (c : Cand) : Int := |c.rows - c.cols|

/-- The three candidates, in evaluation order: first-3 dims vs the 4th,
first-2 vs dims 3–4, first-1 vs dims 2–4 (the trailing fifth dimension is
the RGBA texel and takes part in no split). -/
def specCands (a0 a1 a2 a3 : Int) : List Cand :=
  [⟨a0 * a1 * a2, a3, ""⟩, ⟨a0 * a1, a2 * a3, "nhwc"⟩, ⟨a0, a1 * a2 * a3, "weight"⟩]

/-- Eligibility: both sides strictly below the spatial limit. -/
def candEligible (limit : Int) (c : Cand) : Bool :=
  decide (c.rows < limit) && decide (c.cols < limit)

/-- Least-difference choice over a list of candidates in evaluation order;
an exact tie is won by the later candidate. -/
def pickBest (l : List Cand) : Option Cand :=
  l.foldl
    (fun acc c =>
      match acc with
      | Option.none => some c
      | some b => if candDiff c ≤ candDiff b then some c else some b)
    Option.none

/-- The spec's words for the whole fit rule on four leading literal
dimensions. -/
def FitScopeSpec (a0 a1 a2 a3 limit : Int) : String :=
  match pickBest ((specCands a0 a1 a2 a3).filter (candEligible limit)) with
  | some c => if c.label = "" then "global.texture" else "global.texture-" ++ c.label
  | Option.none => "global"

/-! ## The expression graph

Node identity is an explicit `Nat` id; a shared subexpression appears as two
structurally equal subterms carrying the same id (the C++ graph is a DAG of
pointers).  `opref` stands for a bare `OpNode` in operator position. -/

/-- `checked_type()` of a node, as far as this pass inspects it. -/
inductive Ty where
  | tensor (shape : List PrimExpr)
  | tuple (fields : List Unit)
  | other
deriving DecidableEq

mutual
inductive Expr where
  | var (id : Nat) (ty : Ty) (vd : VirtualDevice)
  | const (id : Nat) (ty : Ty) (vd : VirtualDevice)
  | opref (id : Nat) (name : String)
  | call (id : Nat) (op : Expr) (args : ExprList) (attrs : CallAttrs) (ty : Ty)
      (vd : VirtualDevice)
  | func (id : Nat) (params : ExprList) (body : Expr) (primitive : Bool)

inductive ExprList where
  | nil
  | cons (head : Expr) (tail : ExprList)
end

mutual
/-- Decidable structural equality of expressions. -/
def Expr.beq : Expr → Expr → Bool
  | .var i t v, .var i' t' v' => i = i' ∧ t = t' ∧ v = v'
  | .const i t v, .const i' t' v' => i = i' ∧ t = t' ∧ v = v'
  | .opref i n, .opref i' n' => i = i' ∧ n = n'
  | .call i o a at' t v, .call i' o' a' at2 t' v' =>
    (decide (i = i') && Expr.beq o o' && ExprList.beq a a' &&
      decide (at' = at2) && decide (t = t') && decide (v = v'))
  | .func i p b pr, .func i' p' b' pr' =>
    (decide (i = i') && ExprList.beq p p' && Expr.beq b b' && decide (pr = pr'))
  | _, _ => false

/-- Decidable structural equality of expression lists. -/
def ExprList.beq : ExprList → ExprList → Bool
  | .nil, .nil => true
  | .cons e r, .cons e' r' => Expr.beq e e' && ExprList.beq r r'
  | _, _ => false
end

/-- The node's identity (C++ pointer). -/
def Expr.nodeId : Expr → Nat
  | .var id _ _ => id
  | .const id _ _ => id
  | .opref id _ => id
  | .call id _ _ _ _ _ => id
  | .func id _ _ _ => id

/-- View an `ExprList` as a `List`. -/
def ExprList.toList : ExprList → List Expr
  | .nil => []
  | .cons e rest => e :: rest.toList

/-! ## The forward candidate collector `StorageInfo` -/

/-- The mutable members of the `StorageInfo` visitor, plus the
`visit_counter_` memoization of `ExprVisitor` (a node is dispatched at most
once). -/
structure SIState where
  primitiveSupportsTexture : Bool := false
  storage : List (Nat × List String) := []
  consumer : List (Nat × List String) := []
  argsToVars : List (Nat × List Nat) := []
  visited : List Nat := []
deriving DecidableEq

/-- `StorageInfo::ApplyConsumerScopeToInputs` (the `VarNode` / `ConstantNode`
leaf rule).  Errors model the `ICHECK` and the null-dereference inside
`Scope`; note `shape.back().as<IntImmNode>()` is null-checked here, unlike in
`Scope`. -/
def ApplyConsumerScopeToInputs (id : Nat) (ty : Ty) (vd : VirtualDevice) (s : SIState) :
    Except String SIState :=
  match lookupA s.consumer id with
  | Option.none => .ok s
  | some demand =>
    let consumerScope := GetConsumerScope demand
    if (lookupA s.storage id).isSome then
      .error "Already propagated consumer scopes to input"
    else
      let computed : Except String (String × Bool) :=
        match ty with
        | .tensor shape =>
          match Scope shape vd with
          | Option.none => .error "Scope: null IntImm dereference"
          | some sc =>
            let rgba : Bool := sc ≠ "global" &&
              (match shape.getLast? with
               | some dim =>
                 match dim.asIntImm with
                 | some v => v = 4
                 | Option.none => false
               | Option.none => false)
            .ok (sc, rgba)
        | _ => .ok ("", false)
      match computed with
      | .error msg => .error msg
      | .ok (sc, rgba) =>
        if strContains consumerScope "global.texture" then
          .ok (if rgba then { s with storage := pushA s.storage id sc } else s)
        else
          .ok { s with storage := pushA s.storage id consumerScope }

/-- The `args_to_vars_` recording loop: one binding per
argument/formal-parameter pair. -/
def recordArgsToVars (a2v : List (Nat × List Nat)) : ExprList → ExprList →
    List (Nat × List Nat)
  | .cons a args', .cons p params' =>
    recordArgsToVars (pushA a2v a.nodeId p.nodeId) args' params'
  | _, _ => a2v

/-- `storage_scope_[call].push_back("global.texture")` once per tuple field. -/
def pushTextureN (m : List (Nat × List String)) (k : Nat) : Nat → List (Nat × List String)
  | 0 => m
  | n + 1 => pushTextureN (pushA m k "global.texture") k n

/-- The consumer-demand loop of `DeviceAwareVisitExpr_`: for every argument,
append `"global.texture"` when the call itself acquired a candidate scope
(guarded by the mixed-output `ICHECK`), else `"global"`. -/
def pushArgDemands (callId : Nat) : ExprList → SIState → Except String SIState
  | .nil, s => .ok s
  | .cons a rest, s =>
    match lookupA s.storage callId with
    | some scopes =>
      if hasMixedList scopes then
        .error "Mixed output storage scopes are not currently supported"
      else
        pushArgDemands callId rest
          { s with consumer := pushA s.consumer a.nodeId "global.texture" }
    | Option.none =>
      pushArgDemands callId rest
        { s with consumer := pushA s.consumer a.nodeId "global" }

/-- One step of the retraction loop at the end of `DeviceAwareVisitExpr_`:
erase the optimistic candidate of an argument (and of its callee's body)
whose aggregated demand does not unify to the texture scope. -/
def retractOne (a : Expr) (s : SIState) : SIState :=
  match lookupA s.consumer a.nodeId with
  | some demand =>
    if GetConsumerScope demand ≠ "global.texture" then
      let st := eraseA s.storage a.nodeId
      let st :=
        match a with
        | .call _ (.func _ _ body _) _ _ _ _ => eraseA st body.nodeId
        | _ => st
      { s with storage := st }
    else s
  | Option.none => s

/-- The retraction loop over all arguments of a call. -/
def retractArgs : ExprList → SIState → SIState
  | .nil, s => s
  | .cons a rest, s => retractArgs rest (retractOne a s)

/-- Every expression has positive size (used by the termination measures). -/
theorem Expr.sizeOf_positive (e : Expr) : 0 < sizeOf e := by
  cases e <;> simp_arith

/-- Every expression list has positive size. -/
theorem ExprList.sizeOf_list_positive (l : ExprList) : 0 < sizeOf l := by
  cases l <;> simp_arith

/-- Result values of fallible steps are comparable (used to evaluate the
model on concrete graphs inside proofs). -/
instance {ε α : Type} [DecidableEq ε] [DecidableEq α] : DecidableEq (Except ε α) :=
  fun a b =>
    match a, b with
    | .error x, .error y => decidable_of_iff (x = y) (by simp)
    | .ok x, .ok y => decidable_of_iff (x = y) (by simp)
    | .error _, .ok _ => isFalse (by simp)
    | .ok _, .error _ => isFalse (by simp)

/-- Error-propagating sequencing of visitor steps (the C++ visitor simply
aborts on `ICHECK`; `bindE` chains steps of the model). -/
def bindE (x : Except String SIState) (f : SIState → Except String SIState) :
    Except String SIState :=
  match x with
  | .error msg => .error msg
  | .ok s => f s

/-- The candidate-scope assignment step of `DeviceAwareVisitExpr_`, taken
when the transient supports-texture flag is set after analyzing the callee:
a tensor result gets the fit evaluator's scope, a tuple result gets
`"global.texture"` per field (with the `ICHECK(tuple_type)` failure on any
other type), and the argument-to-parameter bindings are recorded. -/
def assignCallScope (id : Nat) (args params : ExprList) (ty : Ty) (vd : VirtualDevice)
    (s1 : SIState) : Except String SIState :=
  if s1.primitiveSupportsTexture then
    match ty with
    | .tensor shape =>
      match Scope shape vd with
      | Option.none => .error "Scope: null IntImm dereference"
      | some sc =>
        .ok { s1 with storage := pushA s1.storage id sc,
                      argsToVars := recordArgsToVars s1.argsToVars args params }
    | .tuple fields =>
      .ok { s1 with storage := pushTextureN s1.storage id fields.length,
                    argsToVars := recordArgsToVars s1.argsToVars args params }
    | .other => .error "ICHECK failed: tuple_type"
  else .ok s1

mutual
/-- The traversal of `StorageInfo`, as one function over a mode flag so that
the recursion is structural: `visitE true` is `StorageInfo::Visit` (a
`FunctionNode` is traversed body before params, with no memoization mark on
the function node itself), and `visitE false` is `ExprVisitor::VisitExpr`
with its `visit_counter_` memoization, dispatching to the `StorageInfo`
overrides (`VarNode`/`ConstantNode` go to the leaf rule, a call to
`DeviceAwareVisitExpr_` — inlined in the `.call` branch —, a bare function
to the default visitor which takes params before body, an `OpNode` to a
no-op).  On every non-function node the two modes agree, as in the source,
where `Visit` falls through to `VisitExpr`. -/
def visitE : Bool → Expr → SIState → Except String SIState
  | true, .func _ params body _, s =>
    bindE (visitE false body s) (fun s' => visitParams params s')
  | _, e, s =>
    if e.nodeId ∈ s.visited then .ok s
    else
      let s' := { s with visited := e.nodeId :: s.visited }
      match e with
      | .var id ty vd => ApplyConsumerScopeToInputs id ty vd s'
      | .const id ty vd => ApplyConsumerScopeToInputs id ty vd s'
      | .opref _ _ => .ok s'
      | .func _ params body _ =>
        bindE (visitParams params s') (fun s'' => visitE false body s'')
      | .call id op args attrs ty vd =>
        -- `StorageInfo::DeviceAwareVisitExpr_(CallNode*)`: the operator
        -- phase, the flag update from the capability matcher, the argument
        -- loop and the retraction loop
        bindE
          (match op with
           | .func _ params fbody primAttr =>
             if primAttr then
               bindE
                 (bindE (visitE false fbody { s' with primitiveSupportsTexture := false })
                   (fun sb => visitParams params sb))
                 (fun s1 =>
                   bindE (assignCallScope id args params ty vd s1)
                     (fun s2 => pushArgDemands id args s2))
             else .ok s'
           | _ => .ok s')
          (fun s3 =>
            bindE
              (visitArgs args
                { s3 with primitiveSupportsTexture := SupportsTextureStorage attrs })
              (fun s5 => .ok (retractArgs args s5)))

/-- Visiting a parameter list through `VisitExpr`. -/
def visitParams : ExprList → SIState → Except String SIState
  | .nil, s => .ok s
  | .cons p rest, s => bindE (visitE false p s) (fun s' => visitParams rest s')

/-- The argument loop of `DeviceAwareVisitExpr_`: `Visit(arg)` for each. -/
def visitArgs : ExprList → SIState → Except String SIState
  | .nil, s => .ok s
  | .cons a rest, s => bindE (visitE true a s) (fun s' => visitArgs rest s')
end

/-- The operator phase of `DeviceAwareVisitExpr_` as a named wrapper (the
same term the `.call` branch of `visitE` starts with): when the operator is
a function carrying the primitive attribute, clear the supports-texture
flag, run `Visit(call->op)` (body first, then formal parameters), assign the
call's candidate scope, and record the consumer demand of every argument;
otherwise do nothing. -/
def visitCallOpPhase (id : Nat) (op : Expr) (args : ExprList) (ty : Ty)
    (vd : VirtualDevice) (s : SIState) : Except String SIState :=
  match op with
  | .func _ params fbody primAttr =>
    if primAttr then
      bindE
        (bindE (visitE false fbody { s with primitiveSupportsTexture := false })
          (fun sb => visitParams params sb))
        (fun s1 =>
          bindE (assignCallScope id args params ty vd s1)
            (fun s2 => pushArgDemands id args s2))
    else .ok s
  | _ => .ok s

/-- `StorageInfo::DeviceAwareVisitExpr_(CallNode*)` after the memoization
check, as a named wrapper for the `.call` branch of `visitE`. -/
def visitCall (id : Nat) (op : Expr) (args : ExprList) (attrs : CallAttrs) (ty : Ty)
    (vd : VirtualDevice) (s : SIState) : Except String SIState :=
  bindE (visitCallOpPhase id op args ty vd s) (fun s3 =>
    bindE (visitArgs args { s3 with primitiveSupportsTexture := SupportsTextureStorage attrs })
      (fun s5 => .ok (retractArgs args s5)))

/-- `ExprVisitor::VisitExpr`. -/
def visitExpr (e : Expr) (s : SIState) : Except String SIState := visitE false e s

/-- `StorageInfo::Visit`. -/
def visitCustom (e : Expr) (s : SIState) : Except String SIState := visitE true e s

/-! ## Legalization, completion and the final map (`GetStorageMap`) -/

/-- `StorageInfo::LegalizeProducerStorage`, iterating the consumer-demand
table in insertion order. -/
def LegalizeProducerStorage (consumers storage : List (Nat × List String)) :
    Except String (List (Nat × List String)) :=
  match consumers with
  | [] => .ok storage
  | (producer, demand) :: rest =>
    let legalScope := GetConsumerScope demand
    match lookupA storage producer with
    | Option.none => LegalizeProducerStorage rest storage
    | some cand =>
      if hasMixedList cand then
        .error "Mixed output storage scopes are not currently supported"
      else if strContains (cand.headD "") legalScope then
        LegalizeProducerStorage rest storage
      else
        LegalizeProducerStorage rest (setA storage producer (cand.map (fun _ => legalScope)))

/-- The completion loop of `GetStorageMap`: producers with demand, absent
from the map so far, whose demand shows a texture-capable consumer, are
pinned to `"global"`. -/
def fillConsumerGlobals (consumers : List (Nat × List String))
    (storageMap : List (Nat × List String)) : List (Nat × List String) :=
  match consumers with
  | [] => storageMap
  | (producer, demand) :: rest =>
    if CanConsumeTextures demand && (lookupA storageMap producer).isNone then
      fillConsumerGlobals rest (setA storageMap producer ["global"])
    else
      fillConsumerGlobals rest storageMap

/-- The `args_to_vars_` propagation loop of `GetStorageMap`: copy an
argument's final scopes onto every formal parameter it binds to. -/
def propagateArgsToVars (a2v : List (Nat × List Nat))
    (storageMap : List (Nat × List String)) : List (Nat × List String) :=
  match a2v with
  | [] => storageMap
  | (argId, vars) :: rest =>
    match lookupA storageMap argId with
    | some scopes =>
      propagateArgsToVars rest (vars.foldl (fun m v => setA m v scopes) storageMap)
    | Option.none => propagateArgsToVars rest storageMap

/-- `StorageInfo::GetStorageMap`. -/
def GetStorageMap (e : Expr) : Except String (List (Nat × List String)) :=
  match visitExpr e {} with
  | .error msg => .error msg
  | .ok s =>
    match LegalizeProducerStorage s.consumer s.storage with
    | .error msg => .error msg
    | .ok storage =>
      let storageMap := storage
      let storageMap := fillConsumerGlobals s.consumer storageMap
      let storageMap := propagateArgsToVars s.argsToVars storageMap
      .ok storageMap

/-! ## Device enumeration and registry dispatch -/

/-- `std::set<std::string>::insert`: sorted, duplicate-free. -/
def insertSorted (l : List String) (x : String) : List String :=
  match l with
  | [] => [x]
  | y :: rest =>
    if x < y then x :: y :: rest
    else if x = y then y :: rest
    else y :: insertSorted rest x

mutual
/-- `CollectVirtualDevices`' traversal, over the same mode flag as `visitE`
(`true` is its `Visit`, body before params on functions; `false` is plain
`VisitExpr`, params before body).  Memoization is omitted: re-visiting a
shared node re-inserts the same strings into the set, which cannot change
it.  Only call nodes contribute, from their constrained virtual device's
target kind and `"device"` attribute. -/
def cvdE : Bool → Expr → List String → List String
  | true, .func _ params body _, acc => cvdList params (cvdE false body acc)
  | _, e, acc =>
    match e with
    | .var _ _ _ => acc
    | .const _ _ _ => acc
    | .opref _ _ => acc
    | .func _ params body _ => cvdE false body (cvdList params acc)
    | .call _ _ args _ _ vd =>
      let acc' :=
        if vd.fullyUnconstrained = false then
          match vd.target.device with
          | some d => insertSorted acc (vd.target.kindName ++ "." ++ d)
          | Option.none => acc
        else acc
      cvdArgs args acc'

/-- Parameter loop of the default function visitor. -/
def cvdList : ExprList → List String → List String
  | .nil, acc => acc
  | .cons p rest, acc => cvdList rest (cvdE false p acc)

/-- The argument loop of `CollectVirtualDevices::DeviceAwareVisitExpr_`. -/
def cvdArgs : ExprList → List String → List String
  | .nil, acc => acc
  | .cons a rest, acc => cvdArgs rest (cvdE true a acc)
end

/-- `CollectVirtualDevices().GetDevices(expr)`. -/
def GetDevices (e : Expr) : List String := cvdE false e []

/-- The process-wide registry, read-only during the pass: a map from string
keys to analysis entry points. -/
def Registry : Type := String → Option (Expr → Except String (List (Nat × List String)))

/-- `CollectTextureStorage`, the entry point registered for
`"relay.backend.opencl.adreno"`. -/
def CollectTextureStorage (e : Expr) : Except String (List (Nat × List String)) :=
  GetStorageMap e

/-- The registry as populated by this translation unit's single
`TVM_REGISTER_GLOBAL`. -/
def registryAdreno : Registry := fun key =>
  if key = "relay.backend.opencl.adreno._CollectStorageInfo" then some CollectTextureStorage
  else Option.none

/-- The lookup key built by `CollectStorageInfo` from the sorted device set. -/
def dispatchKey (e : Expr) : String :=
  ((GetDevices e).foldl (fun acc d => acc ++ "." ++ d) "relay.backend")
    ++ "._CollectStorageInfo"

/-- `CollectStorageInfo(expr)`: dispatch to the registered analysis, or the
empty map if none is registered for the discovered device set. -/
def CollectStorageInfo (registry : Registry) (e : Expr) :
    Except String (List (Nat × List String)) :=
  match registry (dispatchKey e) with
  | some f => f e
  | Option.none => .ok []

/-! ## The rewriter `RewriteVDStorageScopes`

Modelled from the spec: the `OnDevice` wrapping and the `DeviceAware`
mutator's handling of placement annotations live in repository headers that
are not part of the excerpt, so — following §3's invariant that a node has
at most one placement descriptor and §4.5's wording that the rewrite only
substitutes the storage-scope text of the descriptor — attaching a placement
annotation is modelled as updating the node's `memoryScope` field in place. -/

/-- Build the updated placement descriptor: same device type, device id and
target, new storage scope. -/
def withScope (vd : VirtualDevice) (sc : String) : VirtualDevice :=
  { vd with memoryScope := sc }

mutual
/-- `RewriteVDStorageScopes`' mutator, given the finalized scope map. -/
def rewriteExpr (m : List (Nat × List String)) : Expr → Expr
  | .var id ty vd =>
    match lookupA m id with
    | some scopes =>
      if scopes.headD "" ≠ "global" then .var id ty (withScope vd (scopes.headD ""))
      else .var id ty vd
    | Option.none => .var id ty vd
  | .const id ty vd =>
    match lookupA m id with
    | some scopes => .const id ty (withScope vd (scopes.headD ""))
    | Option.none => .const id ty vd
  | .opref id n => .opref id n
  | .func id params body primAttr =>
    .func id (rewriteList m params) (rewriteExpr m body) primAttr
  | .call id op args attrs ty vd =>
    let op' := rewriteExpr m op
    let args' := rewriteList m args
    let memoryScope : String :=
      match lookupA m id with
      | some scopes => scopes.headD ""
      | Option.none => if vd.memoryScope ≠ "" then vd.memoryScope else ""
    if memoryScope ≠ "" then .call id op' args' attrs ty (withScope vd memoryScope)
    else .call id op' args' attrs ty vd

/-- The mutator over an expression list. -/
def rewriteList (m : List (Nat × List String)) : ExprList → ExprList
  | .nil => .nil
  | .cons e rest => .cons (rewriteExpr m e) (rewriteList m rest)
end

/-- `AnnotateMemoryScopeExpr`: collect, and rewrite only when the collected
map is non-empty. -/
def AnnotateMemoryScopeExpr (registry : Registry) (e : Expr) : Except String Expr :=
  match CollectStorageInfo registry e with
  | .error msg => .error msg
  | .ok m => if m.length ≠ 0 then .ok (rewriteExpr m e) else .ok e

/-! ## Concrete graphs for the scenario claims -/

/-- A constrained placement descriptor on the OpenCL/Adreno target with no
explicit `texture_spatial_limit` attribute (so the default 16384 applies). -/
def vdAdreno : VirtualDevice :=
  { deviceType := 4, virtualDeviceId := 0,
    target := { kindName := "opencl", device := some "adreno", textureSpatialLimit := Option.none },
    memoryScope := "", fullyUnconstrained := false }

/-- A fully unconstrained placement descriptor. -/
def vdUnconstrained : VirtualDevice :=
  { deviceType := 0, virtualDeviceId := 0,
    target := { kindName := "", device := Option.none, textureSpatialLimit := Option.none },
    memoryScope := "", fullyUnconstrained := true }

/-- Scenario A (claim C1): a single primitive convolution call,
`data_layout="NCHW4c"`, `kernel_layout="OIHW4o"`, output shape
`[1,4,8,8,4]`, constrained placement, spatial limit 16384.  Node ids: outer
call 0, formal parameters 1 and 2, inner call 3, primitive function 4,
graph inputs 5 and 6, operator node 9. -/
def scenarioAShapeOut : List PrimExpr :=
  [.intImm 1, .intImm 4, .intImm 8, .intImm 8, .intImm 4]

def scenarioAShapeW : List PrimExpr :=
  [.intImm 4, .intImm 4, .intImm 3, .intImm 3, .intImm 4]

def scenarioAParam1 : Expr := .var 1 (.tensor scenarioAShapeOut) vdAdreno
def scenarioAParam2 : Expr := .var 2 (.tensor scenarioAShapeW) vdAdreno

def scenarioABody : Expr :=
  .call 3 (.opref 9 "nn.conv2d")
    (.cons scenarioAParam1 (.cons scenarioAParam2 .nil))
    (.conv2d "NCHW4c" "OIHW4o") (.tensor scenarioAShapeOut) vdAdreno

def scenarioAFn : Expr :=
  .func 4 (.cons scenarioAParam1 (.cons scenarioAParam2 .nil)) scenarioABody true

def scenarioAInput1 : Expr := .var 5 (.tensor scenarioAShapeOut) vdAdreno
def scenarioAInput2 : Expr := .const 6 (.tensor scenarioAShapeW) vdAdreno

def scenarioA : Expr :=
  .call 0 scenarioAFn (.cons scenarioAInput1 (.cons scenarioAInput2 .nil))
    .none (.tensor scenarioAShapeOut) vdAdreno

/-- A primitive convolution call whose capability matcher accepts but whose
output shape `[1,4,8,8,3]` fails the fit test, so its candidate scope is
`"global"`; used against claim C2.  Node ids: outer call 10, formal
parameter 11, inner call 13, primitive function 14, graph input 15,
operator node 19. -/
def scenarioEShape : List PrimExpr :=
  [.intImm 1, .intImm 4, .intImm 8, .intImm 8, .intImm 3]

def scenarioEParam : Expr := .var 11 (.tensor scenarioEShape) vdAdreno

def scenarioEBody : Expr :=
  .call 13 (.opref 19 "nn.conv2d") (.cons scenarioEParam .nil)
    (.conv2d "NCHW4c" "OIHW4o") (.tensor scenarioEShape) vdAdreno

def scenarioEFn : Expr := .func 14 (.cons scenarioEParam .nil) scenarioEBody true

def scenarioEInput : Expr := .var 15 (.tensor scenarioEShape) vdAdreno

def scenarioE : Expr :=
  .call 10 scenarioEFn (.cons scenarioEInput .nil) .none (.tensor scenarioEShape) vdAdreno

/-- Scenario D (claim C7): a graph whose only node is an unconstrained
`Reference` with no consumers. -/
def scenarioD : Expr := .var 20 (.tensor [.intImm 4]) vdUnconstrained

/-- A 5-d shape whose trailing dimension is the literal `5` while its leading
dimension is symbolic; used against claim C8. -/
def shapeSymbolic5 : List PrimExpr :=
  [.sym "n", .intImm 4, .intImm 8, .intImm 8, .intImm 5]

/-- The storage map the analysis computes for scenario A. -/
def scenarioAMap : List (Nat × List String) :=
  [(0, ["global.texture"]), (5, ["global.texture"]), (6, ["global.texture-nhwc"]),
   (1, ["global.texture"]), (2, ["global.texture-nhwc"])]

/-! ## Static id-collection functions used to state the graph invariants -/

/-- The ids of the expressions of a list (the C++ pointers of `call->args`). -/
def argIdList : ExprList → List Nat
  | .nil => []
  | .cons a rest => a.nodeId :: argIdList rest

/-- `m.map fst` is duplicate-free: the well-formedness enjoyed by every map
whose keys are distinct node pointers. -/
def keysDistinct {α : Type} (m : List (Nat × α)) : Prop :=
  (m.map Prod.fst).Nodup

mutual
/-- Ids of the argument expressions of calls whose operator is a function
carrying the primitive attribute — the only nodes the collector records
consumer demand for. -/
def primArgIds : Expr → List Nat
  | .var _ _ _ => []
  | .const _ _ _ => []
  | .opref _ _ => []
  | .func _ params body _ => primArgIdsList params ++ primArgIds body
  | .call _ op args _ _ _ =>
    (match op with
     | .func _ _ _ primAttr => if primAttr then argIdList args else []
     | _ => []) ++ (primArgIds op ++ primArgIdsList args)

def primArgIdsList : ExprList → List Nat
  | .nil => []
  | .cons e rest => primArgIds e ++ primArgIdsList rest
end

mutual
/-- Ids of all call nodes of the graph. -/
def callIds : Expr → List Nat
  | .var _ _ _ => []
  | .const _ _ _ => []
  | .opref _ _ => []
  | .func _ params body _ => callIdsList params ++ callIds body
  | .call id op args _ _ _ => id :: (callIds op ++ callIdsList args)

def callIdsList : ExprList → List Nat
  | .nil => []
  | .cons e rest => callIds e ++ callIdsList rest
end

mutual
/-- Ids of the formal parameters of functions carrying the primitive
attribute — the only nodes `args_to_vars_` can bind to. -/
def primParamIds : Expr → List Nat
  | .var _ _ _ => []
  | .const _ _ _ => []
  | .opref _ _ => []
  | .func _ params body primAttr =>
    (if primAttr then argIdList params else []) ++ (primParamIdsList params ++ primParamIds body)
  | .call _ op args _ _ _ => primParamIds op ++ primParamIdsList args

def primParamIdsList : ExprList → List Nat
  | .nil => []
  | .cons e rest => primParamIds e ++ primParamIdsList rest
end

/-- All variable ids appearing as values of the `args_to_vars_` table. -/
def a2vVals (a2v : List (Nat × List Nat)) : List Nat :=
  match a2v with
  | [] => []
  | kv :: rest => kv.2 ++ a2vVals rest

/-- The argument ids for which the demand loop of `DeviceAwareVisitExpr_`
fires: non-empty exactly when the call operator is a function carrying the
primitive attribute. -/
def primOpArgIds (op : Expr) (args : ExprList) : List Nat :=
  match op with
  | .func _ _ _ primAttr => if primAttr then argIdList args else []
  | _ => []

/-! # Theorems

First the generic association-list lemmas shared by several claims, then the
claims in order. -/

theorem lookupA_setA_self {α : Type} (m : List (Nat × α)) (k : Nat) (v : α) :
    lookupA (setA m k v) k = some v := by
  induction m with
  | nil => simp [setA, lookupA]
  | cons kv rest ih =>
    obtain ⟨k', v'⟩ := kv
    by_cases h : k = k' <;> simp [setA, lookupA, h, ih]

theorem lookupA_setA_ne {α : Type} (m : List (Nat × α)) (k j : Nat) (v : α) (h : j ≠ k) :
    lookupA (setA m k v) j = lookupA m j := by
  induction m with
  | nil => simp [setA, lookupA, h]
  | cons kv rest ih =>
    obtain ⟨k', v'⟩ := kv
    by_cases hk : k = k'
    · subst hk; simp [setA, lookupA, h, ih]
    · by_cases hj : j = k' <;> simp [setA, lookupA, hk, hj, ih]

theorem lookupA_pushA_self {α : Type} (m : List (Nat × List α)) (k : Nat) (v : α) :
    lookupA (pushA m k v) k = some ((lookupA m k).getD [] ++ [v]) := by
  induction m with
  | nil => simp [pushA, lookupA]
  | cons kv rest ih =>
    obtain ⟨k', l⟩ := kv
    by_cases h : k = k' <;> simp [pushA, lookupA, h, ih]

theorem lookupA_pushA_ne {α : Type} (m : List (Nat × List α)) (k j : Nat) (v : α)
    (h : j ≠ k) : lookupA (pushA m k v) j = lookupA m j := by
  induction m with
  | nil => simp [pushA, lookupA, h]
  | cons kv rest ih =>
    obtain ⟨k', l⟩ := kv
    by_cases hk : k = k'
    · subst hk; simp [pushA, lookupA, h, ih]
    · by_cases hj : j = k' <;> simp [pushA, lookupA, hk, hj, ih]

theorem lookupA_eraseA_none {α : Type} (m : List (Nat × α)) (k j : Nat)
    (h : lookupA m j = Option.none) : lookupA (eraseA m k) j = Option.none := by
  induction m with
  | nil => simpa [eraseA] using h
  | cons kv rest ih =>
    obtain ⟨k', v'⟩ := kv
    by_cases hj : j = k'
    · subst hj; simp [lookupA] at h
    · simp only [lookupA, if_neg hj] at h
      by_cases hk : k = k' <;> simp [eraseA, lookupA, hk, hj, ih h, h]

theorem lookupA_none_notMem {α : Type} (m : List (Nat × α)) (k : Nat)
    (h : lookupA m k = Option.none) : ∀ v, (k, v) ∉ m := by
  induction m with
  | nil => simp
  | cons kv rest ih =>
    obtain ⟨k', v'⟩ := kv
    by_cases hj : k = k'
    · subst hj; simp [lookupA] at h
    · simp only [lookupA, if_neg hj] at h
      intro v hv
      rcases List.mem_cons.mp hv with h1 | h1
      · exact hj (congrArg Prod.fst h1)
      · exact ih h v h1

/-! ## C5 — demand unification (`GetConsumerScope`) -/

/-- C5: the demand-unification function returns `"global"` for the empty
list and for every list with an entry lacking the texture tag, and returns
`"global.texture"` for every non-empty list all of whose entries carry the
texture tag. -/
theorem C5_unify_demand :
    GetConsumerScope [] = "global"
    ∧ (∀ (l : List String) (sc : String), sc ∈ l →
        strContains sc "global.texture" = false → GetConsumerScope l = "global")
    ∧ (∀ l : List String, l ≠ [] →
        (∀ sc ∈ l, strContains sc "global.texture" = true) →
        GetConsumerScope l = "global.texture") := by
  refine ⟨rfl, ?_, ?_⟩
  · intro l sc hmem hfalse
    unfold GetConsumerScope
    rcases l with _ | ⟨a, rest⟩
    · rfl
    · have hall : ¬ ((a :: rest).all (fun sc => strContains sc "global.texture") = true) := by
        intro hall
        have := (List.all_eq_true.mp hall) sc hmem
        rw [hfalse] at this
        exact Bool.false_ne_true this
      simp [hall]
  · intro l hne hall
    unfold GetConsumerScope
    rcases l with _ | ⟨a, rest⟩
    · exact absurd rfl hne
    · have : (a :: rest).all (fun sc => strContains sc "global.texture") = true :=
        List.all_eq_true.mpr hall
      simp [this]

/-- Witness for C5 at concrete inputs. -/
theorem C5_unify_demand_witness :
    GetConsumerScope ["global.texture-nhwc", "global"] = "global"
    ∧ GetConsumerScope ["global.texture", "global.texture-weight"] = "global.texture" :=
  ⟨C5_unify_demand.2.1 _ "global" (by simp) (by decide),
   C5_unify_demand.2.2 _ (by simp) (by decide)⟩


/-! ## Unfolding lemmas for the visitor -/

theorem visitE_var (b : Bool) (id : Nat) (ty : Ty) (vd : VirtualDevice) (s : SIState) :
    visitE b (.var id ty vd) s =
      if id ∈ s.visited then .ok s
      else ApplyConsumerScopeToInputs id ty vd { s with visited := id :: s.visited } := by
  cases b <;> rfl

theorem visitE_const (b : Bool) (id : Nat) (ty : Ty) (vd : VirtualDevice) (s : SIState) :
    visitE b (.const id ty vd) s =
      if id ∈ s.visited then .ok s
      else ApplyConsumerScopeToInputs id ty vd { s with visited := id :: s.visited } := by
  cases b <;> rfl

theorem visitE_opref (b : Bool) (id : Nat) (n : String) (s : SIState) :
    visitE b (.opref id n) s =
      if id ∈ s.visited then .ok s
      else .ok { s with visited := id :: s.visited } := by
  cases b <;> rfl

theorem visitE_call (b : Bool) (id : Nat) (op : Expr) (args : ExprList) (attrs : CallAttrs)
    (ty : Ty) (vd : VirtualDevice) (s : SIState) :
    visitE b (.call id op args attrs ty vd) s =
      if id ∈ s.visited then .ok s
      else visitCall id op args attrs ty vd { s with visited := id :: s.visited } := by
  cases b <;> cases op <;> rfl

theorem visitE_func_true (fid : Nat) (params : ExprList) (body : Expr) (pr : Bool)
    (s : SIState) :
    visitE true (.func fid params body pr) s =
      bindE (visitE false body s) (fun s' => visitParams params s') := rfl

theorem visitE_func_false (fid : Nat) (params : ExprList) (body : Expr) (pr : Bool)
    (s : SIState) :
    visitE false (.func fid params body pr) s =
      if fid ∈ s.visited then .ok s
      else bindE (visitParams params { s with visited := fid :: s.visited })
        (fun s'' => visitE false body s'') := rfl

/-! ## The collector on the two concrete scenario graphs -/

/-- The state of the collector after traversing scenario A's graph: the
outer call optimistically holds `"global.texture"` (the fit evaluator's
answer on `[1,4,8,8,4]`), both graph inputs hold the fit evaluator's answer
for their own shapes, both carry one `"global.texture"` demand entry, and
each argument is bound to its formal parameter. -/
theorem scenarioA_state : visitExpr scenarioA {} =
    .ok { primitiveSupportsTexture := false,
          storage := [(0, ["global.texture"]), (5, ["global.texture"]),
                      (6, ["global.texture-nhwc"])],
          consumer := [(5, ["global.texture"]), (6, ["global.texture"])],
          argsToVars := [(5, [1]), (6, [2])],
          visited := [6, 5, 2, 1, 3, 0] } := by
  have hinner : visitE false scenarioABody
      { primitiveSupportsTexture := false, storage := [], consumer := [],
        argsToVars := [], visited := [0] } =
      .ok { primitiveSupportsTexture := true, storage := [], consumer := [],
            argsToVars := [], visited := [2, 1, 3, 0] } := by decide
  show visitE false scenarioA {} = _
  rw [show scenarioA = Expr.call 0 scenarioAFn
        (.cons scenarioAInput1 (.cons scenarioAInput2 .nil)) .none
        (.tensor scenarioAShapeOut) vdAdreno from rfl]
  rw [visitE_call, if_neg (by decide)]
  rw [show visitCall 0 scenarioAFn (.cons scenarioAInput1 (.cons scenarioAInput2 .nil)) .none
        (.tensor scenarioAShapeOut) vdAdreno
        { primitiveSupportsTexture := false, storage := [], consumer := [],
          argsToVars := [], visited := [0] } =
      bindE
        (bindE
          (bindE (visitE false scenarioABody
            { primitiveSupportsTexture := false, storage := [], consumer := [],
              argsToVars := [], visited := [0] })
            (fun sb => visitParams (.cons scenarioAParam1 (.cons scenarioAParam2 .nil)) sb))
          (fun s1 =>
            bindE (assignCallScope 0 (.cons scenarioAInput1 (.cons scenarioAInput2 .nil))
                (.cons scenarioAParam1 (.cons scenarioAParam2 .nil))
                (.tensor scenarioAShapeOut) vdAdreno s1)
              (fun s2 =>
                pushArgDemands 0 (.cons scenarioAInput1 (.cons scenarioAInput2 .nil)) s2)))
        (fun s3 =>
          bindE (visitArgs (.cons scenarioAInput1 (.cons scenarioAInput2 .nil))
              { s3 with primitiveSupportsTexture := SupportsTextureStorage .none })
            (fun s5 =>
              .ok (retractArgs (.cons scenarioAInput1 (.cons scenarioAInput2 .nil)) s5)))
      from rfl]
  rw [hinner]
  show bindE
        (bindE
          (visitParams (.cons scenarioAParam1 (.cons scenarioAParam2 .nil))
            { primitiveSupportsTexture := true, storage := [], consumer := [],
              argsToVars := [], visited := [2, 1, 3, 0] })
          _) _ = _
  decide

/-- The state of the collector after traversing the graph whose primitive
call passes the capability matcher but whose output shape `[1,4,8,8,3]`
fails the fit test: the call's candidate scope is the non-texture
`"global"`, yet the demand entry recorded for its argument is
`"global.texture"`. -/
theorem scenarioE_state : visitExpr scenarioE {} =
    .ok { primitiveSupportsTexture := false,
          storage := [(10, ["global"])],
          consumer := [(15, ["global.texture"])],
          argsToVars := [(15, [11])],
          visited := [15, 11, 13, 10] } := by decide


/-! ## C1 — scenario A (corrected)

The spec's Scenario A expects `"global.texture-nhwc"`, computing the split
differences with the trailing RGBA dimension included.  The source computes
them over the four leading dimensions only (`d3l = a0*a1*a2`, `d3r = a3`,
…), giving differences 24, 60 and 255 for `[1,4,8,8,4]`, whose minimum is
the unsuffixed first split: the assigned scope is `"global.texture"`. -/

/-- Counterexample to C1: on scenario A the analysis assigns the call's
output `["global.texture"]`, which is not the claimed
`"global.texture-nhwc"`. -/
theorem C1_counterexample :
    GetStorageMap scenarioA = .ok scenarioAMap
    ∧ lookupA scenarioAMap 0 = some ["global.texture"]
    ∧ ("global.texture" : String) ≠ "global.texture-nhwc" := by
  refine ⟨?_, by decide, by decide⟩
  unfold GetStorageMap
  rw [scenarioA_state]
  decide

/-- C1 (amended): in scenario A the capability matcher accepts the
convolution call and the analysis assigns the call's output the storage
scope `"global.texture"` (no layout suffix). -/
theorem C1_amended :
    SupportsTextureStorage (.conv2d "NCHW4c" "OIHW4o") = true
    ∧ GetStorageMap scenarioA = .ok scenarioAMap
    ∧ lookupA scenarioAMap 0 = some ["global.texture"] := by
  refine ⟨by decide, ?_, by decide⟩
  unfold GetStorageMap
  rw [scenarioA_state]
  decide

/-! ## C2 — consumer-demand entries (corrected)

The demand loop tests `storage_scope_.count(call)`, i.e. whether the call
acquired *any* candidate scope — not whether that scope is a texture scope.
A primitive call whose callee passes the capability matcher but whose
output shape fails the fit test is assigned the candidate `"global"` and
still records `"global.texture"` demand for its arguments. -/

/-- Counterexample to C2: in the scenario-E graph the call's output is
assigned the non-texture scope `"global"`, yet the demand entry appended
for its argument is `"global.texture"`. -/
theorem C2_counterexample :
    (visitExpr scenarioE {}).map (fun s => (lookupA s.storage 10, lookupA s.consumer 15)) =
      .ok (some ["global"], some ["global.texture"])
    ∧ strContains "global" "global.texture" = false := by
  refine ⟨?_, by decide⟩
  rw [scenarioE_state]
  decide


/-- List-shaped induction for `ExprList` (the mutual recursor is not usable
by the `induction` tactic directly). -/
theorem ExprList.inductionOn {motive : ExprList → Prop} (l : ExprList)
    (nil : motive .nil)
    (cons : ∀ (a : Expr) (rest : ExprList), motive rest → motive (.cons a rest)) :
    motive l :=
  match l with
  | .nil => nil
  | .cons a rest => cons a rest (ExprList.inductionOn rest nil cons)

/-- Membership in an argument list gives membership of the id. -/
theorem nodeId_mem_argIdList (args : ExprList) (a : Expr) (ha : a ∈ args.toList) :
    a.nodeId ∈ argIdList args := by
  induction args using ExprList.inductionOn with
  | nil => simp [ExprList.toList] at ha
  | cons hd tl ih =>
    rcases List.mem_cons.mp ha with h | h
    · subst h; simp [argIdList]
    · simp [argIdList, ih h]

/-- The demand loop never touches the candidate-scope table or the other
state fields. -/
theorem pushArgDemands_frame (callId : Nat) (args : ExprList) (s s' : SIState)
    (hok : pushArgDemands callId args s = .ok s') :
    s'.storage = s.storage ∧ s'.argsToVars = s.argsToVars ∧ s'.visited = s.visited
    ∧ s'.primitiveSupportsTexture = s.primitiveSupportsTexture := by
  induction args using ExprList.inductionOn generalizing s with
  | nil => simp only [pushArgDemands] at hok; cases hok; exact ⟨rfl, rfl, rfl, rfl⟩
  | cons a rest ih =>
    simp only [pushArgDemands] at hok
    rcases hls : lookupA s.storage callId with _ | scopes <;> simp only [hls] at hok
    · have h := ih _ hok
      exact h
    · by_cases hm : hasMixedList scopes = true
      · rw [if_pos hm] at hok; cases hok
      · rw [if_neg hm] at hok
        have h := ih _ hok
        exact h

/-- The demand loop leaves the consumer table unchanged at every id that is
not among the argument ids. -/
theorem pushArgDemands_consumer_other (callId : Nat) (args : ExprList) (s s' : SIState)
    (hok : pushArgDemands callId args s = .ok s') (id : Nat) (hid : id ∉ argIdList args) :
    lookupA s'.consumer id = lookupA s.consumer id := by
  induction args using ExprList.inductionOn generalizing s with
  | nil => simp only [pushArgDemands] at hok; cases hok; rfl
  | cons a rest ih =>
    simp only [argIdList, List.mem_cons, not_or] at hid
    simp only [pushArgDemands] at hok
    rcases hls : lookupA s.storage callId with _ | scopes <;> simp only [hls] at hok
    · rw [ih _ hok hid.2]
      exact lookupA_pushA_ne _ _ _ _ hid.1
    · by_cases hm : hasMixedList scopes = true
      · rw [if_pos hm] at hok; cases hok
      · rw [if_neg hm] at hok
        rw [ih _ hok hid.2]
        exact lookupA_pushA_ne _ _ _ _ hid.1

/-- C2 (amended): for every argument of a primitive-function call processed
by the forward collector (with pairwise distinct argument ids, as for
distinct argument nodes), the demand entry appended to that argument's
consumer-demand list is `"global.texture"` exactly when the call holds any
candidate-scope entry — whatever its value, texture or `"global"` — and
`"global"` otherwise. -/
theorem C2_demand_amended (callId : Nat) (args : ExprList) (s s' : SIState)
    (hnodup : (argIdList args).Nodup)
    (hok : pushArgDemands callId args s = .ok s') :
    ∀ a ∈ args.toList,
      lookupA s'.consumer a.nodeId =
        some ((lookupA s.consumer a.nodeId).getD [] ++
          [if (lookupA s.storage callId).isSome then "global.texture" else "global"]) := by
  induction args using ExprList.inductionOn generalizing s with
  | nil => intro a ha; simp [ExprList.toList] at ha
  | cons hd rest ih =>
    intro a ha
    have hnodup' : (argIdList rest).Nodup := (List.nodup_cons.mp hnodup).2
    have hhd : hd.nodeId ∉ argIdList rest := (List.nodup_cons.mp hnodup).1
    simp only [pushArgDemands] at hok
    rcases hls : lookupA s.storage callId with _ | scopes <;> simp only [hls] at hok
    · rcases List.mem_cons.mp ha with h | h
      · subst h
        have hother := pushArgDemands_consumer_other callId rest _ _ hok _ hhd
        simp [hother, lookupA_pushA_self, hls]
      · have hne : a.nodeId ≠ hd.nodeId := by
          intro hcontra
          exact hhd (hcontra ▸ nodeId_mem_argIdList rest a h)
        have hrec := ih _ hnodup' hok a h
        simp [hrec, lookupA_pushA_ne _ _ _ _ hne, hls]
    · by_cases hm : hasMixedList scopes = true
      · rw [if_pos hm] at hok; cases hok
      · rw [if_neg hm] at hok
        rcases List.mem_cons.mp ha with h | h
        · subst h
          have hother := pushArgDemands_consumer_other callId rest _ _ hok _ hhd
          simp [hother, lookupA_pushA_self, hls]
        · have hne : a.nodeId ≠ hd.nodeId := by
            intro hcontra
            exact hhd (hcontra ▸ nodeId_mem_argIdList rest a h)
          have hrec := ih _ hnodup' hok a h
          simp [hrec, lookupA_pushA_ne _ _ _ _ hne, hls]

/-- Witness for C2's amended statement: one argument, a call holding
candidate scope `["global"]` (demand `"global.texture"` appended), and the
same call with no candidate (demand `"global"` appended). -/
theorem C2_demand_amended_witness :
    lookupA ((pushA ([] : List (Nat × List String)) 7 "global.texture")) 7
      = some ["global.texture"] := by
  have h := C2_demand_amended 0 (.cons (.opref 7 "x") .nil)
    { primitiveSupportsTexture := false, storage := [(0, ["global"])], consumer := [],
      argsToVars := [], visited := [] }
    { primitiveSupportsTexture := false, storage := [(0, ["global"])],
      consumer := pushA [] 7 "global.texture", argsToVars := [], visited := [] }
    (by decide) (by decide) (.opref 7 "x") (by simp [ExprList.toList])
  simpa using h

/-! ## C3 — the scope-fit evaluator refines the spec's fit rule -/

theorem condSub_eq_abs (a b : Int) : (if a > b then a - b else b - a) = |a - b| := by
  rcases le_or_lt a b with h | h
  · rw [if_neg (not_lt.mpr h), abs_sub_comm, abs_of_nonneg (sub_nonneg.mpr h)]
  · rw [if_pos h, abs_of_pos (sub_pos.mpr h)]

/-- The least entry of the `std::map` after an insertion, in terms of the
least entry before it: an inserted key less than or equal to the current
minimum takes over (equality because insertion overwrites the held value). -/
theorem insertDiff_minEntry (m : List (Int × String)) (k : Int) (v : String) :
    minEntry (insertDiff m k v) =
      some (match minEntry m with
            | Option.none => (k, v)
            | some b => if k ≤ b.1 then (k, v) else b) := by
  induction m with
  | nil => rfl
  | cons kv rest ih =>
    obtain ⟨k', v'⟩ := kv
    by_cases hk : k = k'
    · subst hk
      simp only [insertDiff, if_pos rfl, minEntry]
      cases hrest : minEntry rest with
      | none => simp
      | some b =>
        by_cases hb : k ≤ b.1 <;> simp [hb]
    · simp only [insertDiff, if_neg hk, minEntry, ih]
      cases hrest : minEntry rest with
      | none =>
        dsimp only
        split_ifs <;> first | rfl | (exfalso; omega)
      | some b =>
        dsimp only
        by_cases hb : k ≤ b.1
        · simp only [if_pos hb]
          by_cases h1 : k' ≤ k
          · simp only [if_pos h1]
            by_cases h2 : k' ≤ b.1
            · simp only [if_pos h2]
              by_cases h3 : k ≤ k'
              · exact absurd (le_antisymm h3 h1) hk
              · simp only [if_neg h3]
            · exfalso; omega
          · simp only [if_neg h1]
            by_cases h2 : k' ≤ b.1
            · simp only [if_pos h2]
              by_cases h3 : k ≤ k'
              · simp only [if_pos h3]
              · exfalso; omega
            · simp only [if_neg h2, if_pos hb]
        · simp only [if_neg hb]
          by_cases h1 : k' ≤ b.1
          · simp only [if_pos h1]
            by_cases h3 : k ≤ k'
            · exfalso; omega
            · simp only [if_neg h3]
          · simp only [if_neg h1]
            by_cases h3 : k ≤ b.1
            · exact absurd h3 hb
            · simp only [if_neg h3]

set_option maxHeartbeats 1000000 in
/-- The source's candidate-split computation agrees with the spec's words on
every quadruple of leading dimensions and every limit. -/
theorem scopeFromDims_eq_spec (a0 a1 a2 a3 limit : Int) :
    scopeFromDims a0 a1 a2 a3 limit = FitScopeSpec a0 a1 a2 a3 limit := by
  simp only [scopeFromDims, FitScopeSpec, specCands, candDiff, candEligible,
    List.filter_cons, List.filter_nil, Bool.and_eq_true, decide_eq_true_eq,
    pickBest, List.foldl]
  rw [condSub_eq_abs, condSub_eq_abs, condSub_eq_abs]
  by_cases h3 : a0 * a1 * a2 < limit ∧ a3 < limit <;>
    by_cases h2 : a0 * a1 < limit ∧ a2 * a3 < limit <;>
      by_cases h1 : a0 < limit ∧ a1 * a2 * a3 < limit <;>
        simp only [h3, h2, h1, and_self, if_true, if_false, iff_true, iff_false,
          not_true, not_false_iff, ite_true, ite_false, false_and, and_false,
          List.foldl, insertDiff_minEntry, minEntry] <;>
        split_ifs <;> simp_all [← not_le]

/-- C3: on a constrained 5-d all-literal shape with trailing dimension 4 the
evaluator returns exactly the spec's fit rule (three splits over the four
leading dimensions, strict-limit eligibility, least `|rows − cols|`, later
split winning ties); on a non-5-d shape, a shape with literal trailing
dimension other than 4, or an unconstrained placement it returns
`"global"`. -/
theorem C3_fit_evaluator :
    (∀ (a0 a1 a2 a3 : Int) (vd : VirtualDevice), vd.fullyUnconstrained = false →
      Scope [.intImm a0, .intImm a1, .intImm a2, .intImm a3, .intImm 4] vd
        = some (FitScopeSpec a0 a1 a2 a3 (vd.target.textureSpatialLimit.getD 16384)))
    ∧ (∀ (dims : List Int) (vd : VirtualDevice), dims.length = 5 → dims.getLastD 0 ≠ 4 →
        Scope (dims.map PrimExpr.intImm) vd = some "global")
    ∧ (∀ (shape : List PrimExpr) (vd : VirtualDevice), vd.fullyUnconstrained = true →
        Scope shape vd = some "global")
    ∧ (∀ (shape : List PrimExpr) (vd : VirtualDevice), shape.length ≠ 5 →
        Scope shape vd = some "global") := by
  refine ⟨?_, ?_, ?_, ?_⟩
  · intro a0 a1 a2 a3 vd h
    simp [Scope, h, PrimExpr.asIntImm, List.getD, scopeFromDims_eq_spec]
  · intro dims vd h5 hlast
    rcases dims with _ | ⟨d0, _ | ⟨d1, _ | ⟨d2, _ | ⟨d3, _ | ⟨d4, _ | ⟨d5, rest⟩⟩⟩⟩⟩⟩ <;>
      simp_all [List.getLastD]
    cases hfu : vd.fullyUnconstrained <;>
      simp [Scope, hfu, PrimExpr.asIntImm, List.getD, hlast]
  · intro shape vd h
    simp [Scope, h]
  · intro shape vd h
    simp [Scope, h]

/-- Witness for C3 at concrete inputs. -/
theorem C3_fit_evaluator_witness :
    Scope [.intImm 1, .intImm 4, .intImm 8, .intImm 8, .intImm 4] vdAdreno
      = some (FitScopeSpec 1 4 8 8 (vdAdreno.target.textureSpatialLimit.getD 16384))
    ∧ Scope [.intImm 1, .intImm 4, .intImm 8, .intImm 8, .intImm 5] vdAdreno = some "global"
    ∧ Scope [.intImm 3, .intImm 3] vdUnconstrained = some "global"
    ∧ Scope [.intImm 7] vdAdreno = some "global" :=
  ⟨C3_fit_evaluator.1 1 4 8 8 vdAdreno rfl,
   C3_fit_evaluator.2.1 [1, 4, 8, 8, 5] vdAdreno rfl (by decide),
   C3_fit_evaluator.2.2.1 _ vdUnconstrained rfl,
   C3_fit_evaluator.2.2.2 _ vdAdreno (by decide)⟩

/-! ## C8 — behaviour on non-literal dimensions

The claim says the evaluator must fail fast with a descriptive error on any
5-d shape that is not all-literal.  In the source, `as<IntImmNode>()->value`
on a non-literal dimension is a null-pointer dereference (a crash, modelled
as `Option.none`), and it is only ever reached for the trailing dimension,
or for the leading four once the trailing one is the literal 4; when the
trailing dimension is a literal other than 4, the remaining dimensions are
never inspected and the evaluator silently returns `"global"`. -/

/-- Counterexample to C8: on the constrained 5-d shape `[n, 4, 8, 8, 5]`
with a symbolic leading dimension, the evaluator silently returns the
default `"global"` instead of failing. -/
theorem C8_counterexample :
    Scope shapeSymbolic5 vdAdreno = some "global"
    ∧ (some "global" : Option String) ≠ Option.none := ⟨rfl, by simp⟩

/-- C8 (amended): on a constrained 5-d shape the evaluator fails (null
dereference) when the trailing dimension is non-literal, or when the
trailing dimension is the literal 4 and any of the leading four dimensions
is non-literal; when the trailing dimension is a literal other than 4 it
silently returns `"global"`, literal or not elsewhere. -/
theorem C8_amended (shape : List PrimExpr) (vd : VirtualDevice)
    (hc : vd.fullyUnconstrained = false) (h5 : shape.length = 5) :
    ((shape.getD 4 (.sym "")).asIntImm = Option.none → Scope shape vd = Option.none)
    ∧ ((shape.getD 4 (.sym "")).asIntImm = some 4 →
       ((shape.getD 0 (.sym "")).asIntImm = Option.none ∨
        (shape.getD 1 (.sym "")).asIntImm = Option.none ∨
        (shape.getD 2 (.sym "")).asIntImm = Option.none ∨
        (shape.getD 3 (.sym "")).asIntImm = Option.none) →
       Scope shape vd = Option.none)
    ∧ (∀ v : Int, (shape.getD 4 (.sym "")).asIntImm = some v → v ≠ 4 →
       Scope shape vd = some "global") := by
  refine ⟨?_, ?_, ?_⟩
  · intro h4
    unfold Scope
    rw [if_pos ⟨hc, h5⟩, h4]
  · intro h4 hmiss
    unfold Scope
    rw [if_pos ⟨hc, h5⟩, h4]
    cases ho0 : (shape.getD 0 (.sym "")).asIntImm <;>
      cases ho1 : (shape.getD 1 (.sym "")).asIntImm <;>
        cases ho2 : (shape.getD 2 (.sym "")).asIntImm <;>
          cases ho3 : (shape.getD 3 (.sym "")).asIntImm <;>
            simp_all
  · intro v h4 hv
    unfold Scope
    rw [if_pos ⟨hc, h5⟩, h4]
    dsimp only
    rw [if_neg hv]

/-- Witness for C8's amended statement at concrete inputs. -/
theorem C8_amended_witness :
    Scope [.intImm 1, .intImm 4, .intImm 8, .intImm 8, .sym "c"] vdAdreno = Option.none
    ∧ Scope [.sym "n", .intImm 4, .intImm 8, .intImm 8, .intImm 4] vdAdreno = Option.none
    ∧ Scope shapeSymbolic5 vdAdreno = some "global" :=
  ⟨(C8_amended [.intImm 1, .intImm 4, .intImm 8, .intImm 8, .sym "c"] vdAdreno rfl rfl).1 rfl,
   (C8_amended [.sym "n", .intImm 4, .intImm 8, .intImm 8, .intImm 4] vdAdreno rfl rfl).2.1 rfl
     (Or.inl rfl),
   (C8_amended shapeSymbolic5 vdAdreno rfl rfl).2.2 5 rfl (by decide)⟩

/-! ## C4 — legalization of producer storage -/

/-- Legalization never creates an entry for a producer that has no candidate
scope: a key absent from the candidate table stays absent. -/
theorem legalize_lookup_none (consumers storage : List (Nat × List String)) (q : Nat)
    (h : lookupA storage q = Option.none) :
    ∀ st', LegalizeProducerStorage consumers storage = .ok st' →
      lookupA st' q = Option.none := by
  induction consumers generalizing storage with
  | nil =>
    intro st' hok
    simp only [LegalizeProducerStorage] at hok
    cases hok
    exact h
  | cons kv rest ih =>
    obtain ⟨producer, demand⟩ := kv
    intro st' hok
    simp only [LegalizeProducerStorage] at hok
    rcases hp : lookupA storage producer with _ | cand <;> simp only [hp] at hok
    · exact ih storage h st' hok
    · by_cases hm : hasMixedList cand = true
      · rw [if_pos hm] at hok; cases hok
      · rw [if_neg hm] at hok
        by_cases hc : strContains (cand.headD "") (GetConsumerScope demand) = true
        · rw [if_pos hc] at hok
          exact ih storage h st' hok
        · rw [if_neg hc] at hok
          have hne : q ≠ producer := by
            intro hqp
            rw [hqp, hp] at h
            cases h
          refine ih _ ?_ st' hok
          rw [lookupA_setA_ne _ _ _ _ hne]
          exact h

/-- Legalization does not touch producers whose key carries no demand
entry. -/
theorem legalize_lookup_other (consumers storage : List (Nat × List String)) (p : Nat)
    (hnot : ∀ d, (p, d) ∉ consumers) :
    ∀ st', LegalizeProducerStorage consumers storage = .ok st' →
      lookupA st' p = lookupA storage p := by
  induction consumers generalizing storage with
  | nil =>
    intro st' hok
    simp only [LegalizeProducerStorage] at hok
    cases hok
    rfl
  | cons kv rest ih =>
    obtain ⟨producer, demand⟩ := kv
    intro st' hok
    have hne : p ≠ producer := by
      intro hpq
      exact hnot demand (by rw [hpq]; exact List.mem_cons_self _ _)
    have hnot' : ∀ d, (p, d) ∉ rest := fun d hd => hnot d (List.mem_cons_of_mem _ hd)
    simp only [LegalizeProducerStorage] at hok
    rcases hp : lookupA storage producer with _ | cand <;> simp only [hp] at hok
    · exact ih storage hnot' st' hok
    · by_cases hm : hasMixedList cand = true
      · rw [if_pos hm] at hok; cases hok
      · rw [if_neg hm] at hok
        by_cases hc : strContains (cand.headD "") (GetConsumerScope demand) = true
        · rw [if_pos hc] at hok
          exact ih storage hnot' st' hok
        · rw [if_neg hc] at hok
          rw [ih _ hnot' st' hok]
          exact lookupA_setA_ne _ _ _ _ hne

/-- A producer with demand and a mixed candidate-scope vector makes the
whole legalization abort with the `ICHECK` failure. -/
theorem legalize_mixed_abort (consumers storage : List (Nat × List String))
    (p : Nat) (demand cand : List String)
    (hdist : keysDistinct consumers) (hmem : (p, demand) ∈ consumers)
    (hcand : lookupA storage p = some cand) (hmix : hasMixedList cand = true) :
    ∀ st', LegalizeProducerStorage consumers storage ≠ .ok st' := by
  induction consumers generalizing storage with
  | nil => simp at hmem
  | cons kv rest ih =>
    obtain ⟨producer, demand'⟩ := kv
    intro st' hok
    have hdist' : keysDistinct rest := (List.nodup_cons.mp hdist).2
    have hhd : producer ∉ rest.map Prod.fst := (List.nodup_cons.mp hdist).1
    simp only [LegalizeProducerStorage] at hok
    rcases List.mem_cons.mp hmem with heq | hmem'
    · obtain ⟨hp1, hp2⟩ := Prod.mk.injEq .. ▸ heq
      subst hp1
      simp only [hcand] at hok
      rw [if_pos hmix] at hok
      cases hok
    · have hpne : p ≠ producer := by
        intro hpq
        exact hhd (hpq ▸ List.mem_map_of_mem Prod.fst hmem')
      rcases hp : lookupA storage producer with _ | candq <;> simp only [hp] at hok
      · exact ih storage hdist' hmem' hcand st' hok
      · by_cases hm : hasMixedList candq = true
        · rw [if_pos hm] at hok; cases hok
        · rw [if_neg hm] at hok
          by_cases hc : strContains (candq.headD "") (GetConsumerScope demand') = true
          · rw [if_pos hc] at hok
            exact ih storage hdist' hmem' hcand st' hok
          · rw [if_neg hc] at hok
            refine ih _ hdist' hmem' ?_ st' hok
            rw [lookupA_setA_ne _ _ _ _ hpne]
            exact hcand

/-- A producer with demand whose unmixed candidate scope does not contain
the unified demand as a substring has every output scope entry overwritten
with the unified demand. -/
theorem legalize_overwrites (consumers storage : List (Nat × List String))
    (p : Nat) (demand cand : List String)
    (hdist : keysDistinct consumers) (hmem : (p, demand) ∈ consumers)
    (hcand : lookupA storage p = some cand) (hmix : hasMixedList cand = false)
    (hc : strContains (cand.headD "") (GetConsumerScope demand) = false) :
    ∀ st', LegalizeProducerStorage consumers storage = .ok st' →
      lookupA st' p = some (cand.map (fun _ => GetConsumerScope demand)) := by
  induction consumers generalizing storage with
  | nil => simp at hmem
  | cons kv rest ih =>
    obtain ⟨producer, demand'⟩ := kv
    intro st' hok
    have hdist' : keysDistinct rest := (List.nodup_cons.mp hdist).2
    have hhd : producer ∉ rest.map Prod.fst := (List.nodup_cons.mp hdist).1
    simp only [LegalizeProducerStorage] at hok
    rcases List.mem_cons.mp hmem with heq | hmem'
    · obtain ⟨hp1, hp2⟩ := Prod.mk.injEq .. ▸ heq
      subst hp1
      subst hp2
      simp only [hcand] at hok
      rw [if_neg (by rw [hmix]; exact Bool.false_ne_true),
        if_neg (by rw [hc]; exact Bool.false_ne_true)] at hok
      have hnotin : ∀ d, (p, d) ∉ rest := by
        intro d hd
        exact hhd (List.mem_map_of_mem Prod.fst hd)
      rw [legalize_lookup_other rest _ p hnotin st' hok]
      exact lookupA_setA_self _ _ _
    · have hpne : p ≠ producer := by
        intro hpq
        exact hhd (hpq ▸ List.mem_map_of_mem Prod.fst hmem')
      rcases hp : lookupA storage producer with _ | candq <;> simp only [hp] at hok
      · exact ih storage hdist' hmem' hcand st' hok
      · by_cases hm : hasMixedList candq = true
        · rw [if_pos hm] at hok; cases hok
        · rw [if_neg hm] at hok
          by_cases hc' : strContains (candq.headD "") (GetConsumerScope demand') = true
          · rw [if_pos hc'] at hok
            exact ih storage hdist' hmem' hcand st' hok
          · rw [if_neg hc'] at hok
            refine ih _ hdist' hmem' ?_ st' hok
            rw [lookupA_setA_ne _ _ _ _ hpne]
            exact hcand

/-- C4: during legalization, for every producer (distinct demand keys, as
for distinct node pointers) holding both recorded consumer demand and a
candidate scope: a mixed candidate vector aborts the pass with the
assertion failure rather than picking a scope; an unmixed candidate that
does not contain the unified demand as a substring has every output entry
overwritten with the unified demand; and a producer with no candidate scope
is never given one by this step. -/
theorem C4_legalization (consumers storage : List (Nat × List String))
    (p : Nat) (demand cand : List String)
    (hdist : keysDistinct consumers) (hmem : (p, demand) ∈ consumers)
    (hcand : lookupA storage p = some cand) :
    (hasMixedList cand = true →
      ∀ st', LegalizeProducerStorage consumers storage ≠ .ok st')
    ∧ (hasMixedList cand = false →
       strContains (cand.headD "") (GetConsumerScope demand) = false →
       ∀ st', LegalizeProducerStorage consumers storage = .ok st' →
         lookupA st' p = some (cand.map (fun _ => GetConsumerScope demand)))
    ∧ (∀ q, lookupA storage q = Option.none →
       ∀ st', LegalizeProducerStorage consumers storage = .ok st' →
         lookupA st' q = Option.none) :=
  ⟨fun hmix => legalize_mixed_abort consumers storage p demand cand hdist hmem hcand hmix,
   fun hmix hc => legalize_overwrites consumers storage p demand cand hdist hmem hcand hmix hc,
   fun q hq => legalize_lookup_none consumers storage q hq⟩

/-- Witness for C4: a producer with candidate `["global"]` and unanimous
texture demand is overwritten to `["global.texture"]`, and a key with no
candidate stays absent. -/
theorem C4_legalization_witness :
    lookupA [(1, ["global.texture"])] 1 = some ["global.texture"]
    ∧ lookupA [(1, ["global.texture"])] 2 = Option.none := by
  have h := C4_legalization [(1, ["global.texture"])] [(1, ["global"])] 1
    ["global.texture"] ["global"] (by simp [keysDistinct]) (by simp) (by decide)
  constructor
  · have h2 := h.2.1 (by decide) (by decide) [(1, ["global.texture"])] (by decide)
    simpa using h2
  · exact h.2.2 2 (by decide) [(1, ["global.texture"])] (by decide)

/-! ## C6 — completion of consumer-facing inputs -/

/-- The completion loop does not touch keys that carry no demand entry. -/
theorem fill_lookup_other (consumers m : List (Nat × List String)) (p : Nat)
    (hnot : ∀ d, (p, d) ∉ consumers) :
    lookupA (fillConsumerGlobals consumers m) p = lookupA m p := by
  induction consumers generalizing m with
  | nil => rfl
  | cons kv rest ih =>
    obtain ⟨producer, demand⟩ := kv
    have hne : p ≠ producer := by
      intro hpq
      exact hnot demand (by rw [hpq]; exact List.mem_cons_self _ _)
    have hnot' : ∀ d, (p, d) ∉ rest := fun d hd => hnot d (List.mem_cons_of_mem _ hd)
    simp only [fillConsumerGlobals]
    by_cases hcond : (CanConsumeTextures demand && (lookupA m producer).isNone) = true
    · rw [if_pos hcond, ih _ hnot', lookupA_setA_ne _ _ _ _ hne]
    · rw [if_neg hcond, ih _ hnot']

/-- C6: every node with recorded consumer demand (distinct demand keys)
that is absent from the map built so far and whose demand list contains an
entry carrying the texture tag is assigned exactly the single scope
`"global"` by the completion loop. -/
theorem C6_completion (consumers m : List (Nat × List String)) (p : Nat)
    (demand : List String)
    (hdist : keysDistinct consumers) (hmem : (p, demand) ∈ consumers)
    (habs : lookupA m p = Option.none) (htex : CanConsumeTextures demand = true) :
    lookupA (fillConsumerGlobals consumers m) p = some ["global"] := by
  induction consumers generalizing m with
  | nil => simp at hmem
  | cons kv rest ih =>
    obtain ⟨producer, demand'⟩ := kv
    have hdist' : keysDistinct rest := (List.nodup_cons.mp hdist).2
    have hhd : producer ∉ rest.map Prod.fst := (List.nodup_cons.mp hdist).1
    simp only [fillConsumerGlobals]
    rcases List.mem_cons.mp hmem with heq | hmem'
    · obtain ⟨hp1, hp2⟩ := Prod.mk.injEq .. ▸ heq
      subst hp1
      subst hp2
      rw [if_pos (by rw [htex, habs]; rfl)]
      have hnotin : ∀ d, (p, d) ∉ rest := by
        intro d hd
        exact hhd (List.mem_map_of_mem Prod.fst hd)
      rw [fill_lookup_other rest _ p hnotin]
      exact lookupA_setA_self _ _ _
    · have hpne : p ≠ producer := by
        intro hpq
        exact hhd (hpq ▸ List.mem_map_of_mem Prod.fst hmem')
      by_cases hcond : (CanConsumeTextures demand' && (lookupA m producer).isNone) = true
      · rw [if_pos hcond]
        refine ih _ hdist' hmem' ?_
        rw [lookupA_setA_ne _ _ _ _ hpne]
        exact habs
      · rw [if_neg hcond]
        exact ih _ hdist' hmem' habs

/-- Witness for C6 at a concrete demand table and map. -/
theorem C6_completion_witness :
    lookupA (fillConsumerGlobals [(3, ["global.texture", "global"])] [(9, ["global"])]) 3
      = some ["global"] :=
  C6_completion [(3, ["global.texture", "global"])] [(9, ["global"])] 3
    ["global.texture", "global"] (by simp [keysDistinct]) (by simp) (by decide) (by decide)

/-! ## C7 — the pass is a no-op when the collected map is empty -/

/-- C7: whenever the collected storage-scope map is empty — in particular
when no analysis is registered under the discovered device key, and on the
scenario-D graph (a single unconstrained reference with no consumers) — the
pass returns its input expression unchanged. -/
theorem C7_empty_map_noop :
    (∀ (registry : Registry) (e : Expr), CollectStorageInfo registry e = .ok [] →
      AnnotateMemoryScopeExpr registry e = .ok e)
    ∧ (∀ (registry : Registry) (e : Expr), registry (dispatchKey e) = Option.none →
      AnnotateMemoryScopeExpr registry e = .ok e)
    ∧ AnnotateMemoryScopeExpr registryAdreno scenarioD = .ok scenarioD := by
  have h1 : ∀ (registry : Registry) (e : Expr), CollectStorageInfo registry e = .ok [] →
      AnnotateMemoryScopeExpr registry e = .ok e := by
    intro registry e h
    unfold AnnotateMemoryScopeExpr
    rw [h]
    simp
  have h2 : ∀ (registry : Registry) (e : Expr), registry (dispatchKey e) = Option.none →
      AnnotateMemoryScopeExpr registry e = .ok e := by
    intro registry e h
    refine h1 registry e ?_
    unfold CollectStorageInfo
    rw [h]
  exact ⟨h1, h2, h2 registryAdreno scenarioD (by rw [show dispatchKey scenarioD = "relay.backend._CollectStorageInfo" by decide]; rfl)⟩

/-- Witness for C7 at a concrete registry and graph. -/
theorem C7_empty_map_noop_witness :
    AnnotateMemoryScopeExpr registryAdreno (.opref 3 "x") = .ok (.opref 3 "x") :=
  C7_empty_map_noop.2.1 registryAdreno (.opref 3 "x")
    (by rw [show dispatchKey (.opref 3 "x") = "relay.backend._CollectStorageInfo" by decide]; rfl)

/-! ## C10 — demand entries only for primitive-call arguments

The claim is an invariant of the whole traversal: the consumer-demand table
only ever acquires keys that are argument ids of primitive-function calls,
candidate scopes only attach to call ids or to ids with demand, and
`args_to_vars_` values are always formal-parameter ids of primitive
functions.  The following frame lemmas cover the non-recursive steps; the
main invariant follows by mutual induction over the traversal. -/

theorem lookupA_pushTextureN_ne (m : List (Nat × List String)) (k : Nat) (n : Nat)
    (j : Nat) (h : j ≠ k) : lookupA (pushTextureN m k n) j = lookupA m j := by
  induction n generalizing m with
  | zero => rfl
  | succ n ih => rw [pushTextureN, ih, lookupA_pushA_ne _ _ _ _ h]

theorem a2vVals_pushA (a2v : List (Nat × List Nat)) (k x v : Nat)
    (hv : v ∈ a2vVals (pushA a2v k x)) : v ∈ a2vVals a2v ∨ v = x := by
  induction a2v with
  | nil =>
    simp [pushA, a2vVals] at hv
    exact Or.inr hv
  | cons kv rest ih =>
    obtain ⟨k', l⟩ := kv
    by_cases hk : k = k'
    · subst hk
      simp only [pushA, if_pos rfl, a2vVals, List.mem_append] at hv
      rcases hv with (hv | hv) | hv
      · exact Or.inl (by simp [a2vVals, hv])
      · simp at hv
        exact Or.inr hv
      · exact Or.inl (by simp [a2vVals, hv])
    · simp only [pushA, if_neg hk, a2vVals, List.mem_append] at hv
      rcases hv with hv | hv
      · exact Or.inl (by simp [a2vVals, hv])
      · rcases ih hv with h | h
        · exact Or.inl (by simp [a2vVals, h])
        · exact Or.inr h

/-- Values recorded by the `args_to_vars_` loop are formal-parameter ids. -/
theorem recordArgsToVars_vals : ∀ (args params : ExprList) (a2v : List (Nat × List Nat))
    (v : Nat), v ∈ a2vVals (recordArgsToVars a2v args params) →
    v ∈ a2vVals a2v ∨ v ∈ argIdList params
  | .cons a args', .cons p params', a2v, v, hv => by
    have h := recordArgsToVars_vals args' params' (pushA a2v a.nodeId p.nodeId) v
      (by exact hv)
    rcases h with h | h
    · rcases a2vVals_pushA a2v a.nodeId p.nodeId v h with h' | h'
      · exact Or.inl h'
      · exact Or.inr (by simp [argIdList, h'])
    · exact Or.inr (by simp [argIdList, h])
  | .nil, .nil, a2v, v, hv => Or.inl hv
  | .nil, .cons _ _, a2v, v, hv => Or.inl hv
  | .cons _ _, .nil, a2v, v, hv => Or.inl hv

/-- The leaf rule changes neither the consumer table nor the bindings, and
preserves the absence of a storage entry at any id that has no demand. -/
theorem apply_inv (vid : Nat) (ty : Ty) (vd : VirtualDevice) (s s' : SIState)
    (hok : ApplyConsumerScopeToInputs vid ty vd s = .ok s') :
    s'.consumer = s.consumer ∧ s'.argsToVars = s.argsToVars ∧ s'.visited = s.visited
    ∧ (∀ id, lookupA s.consumer id = Option.none → lookupA s.storage id = Option.none →
        lookupA s'.storage id = Option.none) := by
  unfold ApplyConsumerScopeToInputs at hok
  rcases hcv : lookupA s.consumer vid with _ | demand <;> simp only [hcv] at hok
  · cases hok
    exact ⟨rfl, rfl, rfl, fun id _ h => h⟩
  · by_cases hstor : (lookupA s.storage vid).isSome = true
    · rw [if_pos hstor] at hok; cases hok
    · rw [if_neg hstor] at hok
      have hne : ∀ id, lookupA s.consumer id = Option.none → id ≠ vid := by
        intro id h hcontra
        rw [hcontra, hcv] at h
        cases h
      rcases hty : ty with shape | fields | _
      all_goals simp only [hty] at hok
      · rcases hsc : Scope shape vd with _ | sc <;> simp only [hsc] at hok
        · cases hok
        · by_cases htex : strContains (GetConsumerScope demand) "global.texture" = true
          · rw [if_pos htex] at hok
            by_cases hrgba : (sc ≠ "global" &&
                (match shape.getLast? with
                 | some dim =>
                   match dim.asIntImm with
                   | some v => decide (v = 4)
                   | Option.none => false
                 | Option.none => false)) = true
            · rw [if_pos hrgba] at hok
              cases hok
              refine ⟨rfl, rfl, rfl, fun id hcid hsid => ?_⟩
              exact (lookupA_pushA_ne _ _ _ _ (hne id hcid)).trans hsid
            · rw [if_neg hrgba] at hok
              cases hok
              exact ⟨rfl, rfl, rfl, fun id _ h => h⟩
          · rw [if_neg htex] at hok
            cases hok
            refine ⟨rfl, rfl, rfl, fun id hcid hsid => ?_⟩
            exact (lookupA_pushA_ne _ _ _ _ (hne id hcid)).trans hsid
      · by_cases htex : strContains (GetConsumerScope demand) "global.texture" = true
        · rw [if_pos htex] at hok
          cases hok
          exact ⟨rfl, rfl, rfl, fun id _ h => h⟩
        · rw [if_neg htex] at hok
          cases hok
          refine ⟨rfl, rfl, rfl, fun id hcid hsid => ?_⟩
          exact (lookupA_pushA_ne _ _ _ _ (hne id hcid)).trans hsid
      · by_cases htex : strContains (GetConsumerScope demand) "global.texture" = true
        · rw [if_pos htex] at hok
          cases hok
          exact ⟨rfl, rfl, rfl, fun id _ h => h⟩
        · rw [if_neg htex] at hok
          cases hok
          refine ⟨rfl, rfl, rfl, fun id hcid hsid => ?_⟩
          exact (lookupA_pushA_ne _ _ _ _ (hne id hcid)).trans hsid

/-- The candidate-assignment step: consumer unchanged, storage only pushed
at the call's own id, bindings only extended with the callee's formal
parameters. -/
theorem assign_inv (callId : Nat) (args params : ExprList) (ty : Ty) (vd : VirtualDevice)
    (s s' : SIState) (hok : assignCallScope callId args params ty vd s = .ok s') :
    s'.consumer = s.consumer ∧ s'.visited = s.visited
    ∧ (∀ id, id ≠ callId → lookupA s.storage id = Option.none →
        lookupA s'.storage id = Option.none)
    ∧ (∀ v, v ∈ a2vVals s'.argsToVars →
        v ∈ a2vVals s.argsToVars ∨ v ∈ argIdList params) := by
  unfold assignCallScope at hok
  by_cases hflag : s.primitiveSupportsTexture = true
  · rw [if_pos hflag] at hok
    rcases hty : ty with shape | fields | _
    all_goals simp only [hty] at hok
    · rcases hsc : Scope shape vd with _ | sc <;> simp only [hsc] at hok
      · cases hok
      · cases hok
        refine ⟨rfl, rfl, fun id hne h => ?_, fun v hv => ?_⟩
        · exact (lookupA_pushA_ne _ _ _ _ hne).trans h
        · exact recordArgsToVars_vals args params _ v hv
    · cases hok
      refine ⟨rfl, rfl, fun id hne h => ?_, fun v hv => ?_⟩
      · exact (lookupA_pushTextureN_ne _ _ _ _ hne).trans h
      · exact recordArgsToVars_vals args params _ v hv
    · cases hok
  · rw [if_neg hflag] at hok
    cases hok
    exact ⟨rfl, rfl, fun id _ h => h, fun v hv => Or.inl hv⟩

/-- The retraction loop only erases storage entries. -/
theorem retractArgs_inv (args : ExprList) (s : SIState) :
    (retractArgs args s).consumer = s.consumer
    ∧ (retractArgs args s).argsToVars = s.argsToVars
    ∧ (retractArgs args s).visited = s.visited
    ∧ (retractArgs args s).primitiveSupportsTexture = s.primitiveSupportsTexture
    ∧ (∀ id, lookupA s.storage id = Option.none →
        lookupA (retractArgs args s).storage id = Option.none) := by
  induction args using ExprList.inductionOn generalizing s with
  | nil => exact ⟨rfl, rfl, rfl, rfl, fun id h => h⟩
  | cons a rest ih =>
    have hone : (retractOne a s).consumer = s.consumer
        ∧ (retractOne a s).argsToVars = s.argsToVars
        ∧ (retractOne a s).visited = s.visited
        ∧ (retractOne a s).primitiveSupportsTexture = s.primitiveSupportsTexture
        ∧ (∀ id, lookupA s.storage id = Option.none →
            lookupA (retractOne a s).storage id = Option.none) := by
      unfold retractOne
      rcases hcv : lookupA s.consumer a.nodeId with _ | demand
      · exact ⟨rfl, rfl, rfl, rfl, fun id h => h⟩
      · dsimp only
        by_cases hg : GetConsumerScope demand ≠ "global.texture"
        · rw [if_pos hg]
          rcases a with _ | _ | _ | ⟨_, op, _, _, _, _⟩ | _
          · exact ⟨rfl, rfl, rfl, rfl, fun id h => lookupA_eraseA_none _ _ _ h⟩
          · exact ⟨rfl, rfl, rfl, rfl, fun id h => lookupA_eraseA_none _ _ _ h⟩
          · exact ⟨rfl, rfl, rfl, rfl, fun id h => lookupA_eraseA_none _ _ _ h⟩
          · rcases op with _ | _ | _ | _ | _
            · exact ⟨rfl, rfl, rfl, rfl, fun id h => lookupA_eraseA_none _ _ _ h⟩
            · exact ⟨rfl, rfl, rfl, rfl, fun id h => lookupA_eraseA_none _ _ _ h⟩
            · exact ⟨rfl, rfl, rfl, rfl, fun id h => lookupA_eraseA_none _ _ _ h⟩
            · exact ⟨rfl, rfl, rfl, rfl, fun id h => lookupA_eraseA_none _ _ _ h⟩
            · exact ⟨rfl, rfl, rfl, rfl, fun id h =>
                lookupA_eraseA_none _ _ _ (lookupA_eraseA_none _ _ _ h)⟩
          · exact ⟨rfl, rfl, rfl, rfl, fun id h => lookupA_eraseA_none _ _ _ h⟩
        · rw [if_neg hg]
          exact ⟨rfl, rfl, rfl, rfl, fun id h => h⟩
    have hrest := ih (retractOne a s)
    refine ⟨hrest.1.trans hone.1, hrest.2.1.trans hone.2.1, hrest.2.2.1.trans hone.2.2.1,
      hrest.2.2.2.1.trans hone.2.2.2.1, fun id h => ?_⟩
    rw [retractArgs]
    exact hrest.2.2.2.2 id (hone.2.2.2.2 id h)

/-- Splitting a `bindE` success into its two stages. -/
theorem bindE_ok (x : Except String SIState) (f : SIState → Except String SIState)
    (s' : SIState) (h : bindE x f = .ok s') :
    ∃ smid, x = .ok smid ∧ f smid = .ok s' := by
  cases x with
  | error msg => simp [bindE] at h
  | ok smid => exact ⟨smid, rfl, h⟩

theorem primArgIds_func (fid : Nat) (params : ExprList) (body : Expr) (pr : Bool) :
    primArgIds (.func fid params body pr) = primArgIdsList params ++ primArgIds body := rfl

theorem primArgIds_call (id : Nat) (op : Expr) (args : ExprList) (attrs : CallAttrs)
    (ty : Ty) (vd : VirtualDevice) :
    primArgIds (.call id op args attrs ty vd) =
      (match op with
       | .func _ _ _ primAttr => if primAttr then argIdList args else []
       | _ => []) ++ (primArgIds op ++ primArgIdsList args) := rfl

theorem primArgIdsList_cons (e : Expr) (rest : ExprList) :
    primArgIdsList (.cons e rest) = primArgIds e ++ primArgIdsList rest := rfl

theorem callIds_func (fid : Nat) (params : ExprList) (body : Expr) (pr : Bool) :
    callIds (.func fid params body pr) = callIdsList params ++ callIds body := rfl

theorem callIds_call (id : Nat) (op : Expr) (args : ExprList) (attrs : CallAttrs)
    (ty : Ty) (vd : VirtualDevice) :
    callIds (.call id op args attrs ty vd) = id :: (callIds op ++ callIdsList args) := rfl

theorem callIdsList_cons (e : Expr) (rest : ExprList) :
    callIdsList (.cons e rest) = callIds e ++ callIdsList rest := rfl

theorem primParamIds_func (fid : Nat) (params : ExprList) (body : Expr) (pr : Bool) :
    primParamIds (.func fid params body pr) =
      (if pr then argIdList params else []) ++ (primParamIdsList params ++ primParamIds body) :=
  rfl

theorem primParamIds_call (id : Nat) (op : Expr) (args : ExprList) (attrs : CallAttrs)
    (ty : Ty) (vd : VirtualDevice) :
    primParamIds (.call id op args attrs ty vd) = primParamIds op ++ primParamIdsList args :=
  rfl

theorem primParamIdsList_cons (e : Expr) (rest : ExprList) :
    primParamIdsList (.cons e rest) = primParamIds e ++ primParamIdsList rest := rfl

theorem primArgIds_call_eq (id : Nat) (op : Expr) (args : ExprList) (attrs : CallAttrs)
    (ty : Ty) (vd : VirtualDevice) :
    primArgIds (.call id op args attrs ty vd) =
      primOpArgIds op args ++ (primArgIds op ++ primArgIdsList args) := by
  cases op <;> rfl

theorem lookupA_cons_none {α : Type} (k : Nat) (v : α) (rest : List (Nat × α)) (j : Nat)
    (h : lookupA ((k, v) :: rest) j = Option.none) :
    j ≠ k ∧ lookupA rest j = Option.none := by
  simp only [lookupA] at h
  by_cases hj : j = k
  · rw [if_pos hj] at h; cases h
  · rw [if_neg hj] at h; exact ⟨hj, h⟩

/-- The completion loop never creates an entry for an id without recorded
demand. -/
theorem fill_lookup_none (consumers : List (Nat × List String)) (id : Nat) :
    lookupA consumers id = Option.none →
    ∀ m : List (Nat × List String), lookupA m id = Option.none →
      lookupA (fillConsumerGlobals consumers m) id = Option.none := by
  induction consumers with
  | nil => intro _ m hm; exact hm
  | cons kv rest ih =>
    obtain ⟨producer, demand⟩ := kv
    intro hcons m hm
    obtain ⟨hne, hrest⟩ := lookupA_cons_none producer demand rest id hcons
    simp only [fillConsumerGlobals]
    by_cases hcond : (CanConsumeTextures demand && (lookupA m producer).isNone) = true
    · rw [if_pos hcond]
      exact ih hrest _ ((lookupA_setA_ne _ _ _ _ hne).trans hm)
    · rw [if_neg hcond]
      exact ih hrest _ hm

theorem lookupA_foldl_setA_ne (vars : List Nat) (scopes : List String) (id : Nat) :
    id ∉ vars → ∀ m : List (Nat × List String),
      lookupA (vars.foldl (fun m v => setA m v scopes) m) id = lookupA m id := by
  induction vars with
  | nil => intro _ m; rfl
  | cons v rest ih =>
    intro hid m
    simp only [List.mem_cons, not_or] at hid
    rw [List.foldl_cons, ih hid.2 _, lookupA_setA_ne _ _ _ _ hid.1]

/-- The propagation loop never creates an entry for an id that is not bound
as a formal parameter in the `args_to_vars_` table. -/
theorem propagate_lookup_none (a2v : List (Nat × List Nat)) (id : Nat) :
    id ∉ a2vVals a2v → ∀ m : List (Nat × List String),
      lookupA m id = Option.none →
      lookupA (propagateArgsToVars a2v m) id = Option.none := by
  induction a2v with
  | nil => intro _ m hm; exact hm
  | cons kv rest ih =>
    obtain ⟨argId, vars⟩ := kv
    intro hid m hm
    simp only [a2vVals, List.mem_append, not_or] at hid
    simp only [propagateArgsToVars]
    rcases hl : lookupA m argId with _ | scopes <;> simp only [hl]
    · exact ih hid.2 _ hm
    · exact ih hid.2 _ ((lookupA_foldl_setA_ne vars scopes id hid.1 m).trans hm)

mutual

/-- Main invariant of the forward traversal: an id that is not an argument
of a primitive-function call and not a call output keeps empty consumer and
storage entries, and the only values the `args_to_vars_` table can gain are
primitive formal-parameter ids. -/
theorem visitE_inv (b : Bool) (e : Expr) (s s' : SIState)
    (hok : visitE b e s = .ok s') :
    (∀ id, id ∉ primArgIds e → id ∉ callIds e →
        lookupA s.consumer id = Option.none → lookupA s.storage id = Option.none →
        lookupA s'.consumer id = Option.none ∧ lookupA s'.storage id = Option.none)
    ∧ (∀ v, v ∈ a2vVals s'.argsToVars →
        v ∈ a2vVals s.argsToVars ∨ v ∈ primParamIds e) := by
  cases e with
  | var vid ty vd =>
    rw [visitE_var] at hok
    by_cases hv : vid ∈ s.visited
    · rw [if_pos hv] at hok
      cases hok
      exact ⟨fun id _ _ hc hs => ⟨hc, hs⟩, fun v hv2 => Or.inl hv2⟩
    · rw [if_neg hv] at hok
      obtain ⟨hcons, ha2v, -, hstor⟩ := apply_inv vid ty vd _ _ hok
      refine ⟨fun id _ _ hc hs => ⟨?_, hstor id hc hs⟩, fun v hv2 => Or.inl ?_⟩
      · rw [hcons]; exact hc
      · rw [ha2v] at hv2; exact hv2
  | const cid ty vd =>
    rw [visitE_const] at hok
    by_cases hv : cid ∈ s.visited
    · rw [if_pos hv] at hok
      cases hok
      exact ⟨fun id _ _ hc hs => ⟨hc, hs⟩, fun v hv2 => Or.inl hv2⟩
    · rw [if_neg hv] at hok
      obtain ⟨hcons, ha2v, -, hstor⟩ := apply_inv cid ty vd _ _ hok
      refine ⟨fun id _ _ hc hs => ⟨?_, hstor id hc hs⟩, fun v hv2 => Or.inl ?_⟩
      · rw [hcons]; exact hc
      · rw [ha2v] at hv2; exact hv2
  | opref oid nm =>
    rw [visitE_opref] at hok
    by_cases hv : oid ∈ s.visited
    · rw [if_pos hv] at hok
      cases hok
      exact ⟨fun id _ _ hc hs => ⟨hc, hs⟩, fun v hv2 => Or.inl hv2⟩
    · rw [if_neg hv] at hok
      cases hok
      exact ⟨fun id _ _ hc hs => ⟨hc, hs⟩, fun v hv2 => Or.inl hv2⟩
  | func fid params body pr =>
    cases b with
    | true =>
      rw [visitE_func_true] at hok
      obtain ⟨s1, h1, h2⟩ := bindE_ok _ _ _ hok
      have H1 := visitE_inv false body s s1 h1
      have H2 := visitParams_inv params s1 s' h2
      constructor
      · intro id hpa hci hc hs
        rw [primArgIds_func] at hpa
        rw [callIds_func] at hci
        simp only [List.mem_append, not_or] at hpa hci
        have k1 := H1.1 id hpa.2 hci.2 hc hs
        exact H2.1 id hpa.1 hci.1 k1.1 k1.2
      · intro v hv2
        rcases H2.2 v hv2 with h | h
        · rcases H1.2 v h with h2v | h2v
          · exact Or.inl h2v
          · right
            rw [primParamIds_func]
            exact List.mem_append_right _ (List.mem_append_right _ h2v)
        · right
          rw [primParamIds_func]
          exact List.mem_append_right _ (List.mem_append_left _ h)
    | false =>
      rw [visitE_func_false] at hok
      by_cases hv : fid ∈ s.visited
      · rw [if_pos hv] at hok
        cases hok
        exact ⟨fun id _ _ hc hs => ⟨hc, hs⟩, fun v hv2 => Or.inl hv2⟩
      · rw [if_neg hv] at hok
        obtain ⟨s1, h1, h2⟩ := bindE_ok _ _ _ hok
        have H1 := visitParams_inv params _ s1 h1
        have H2 := visitE_inv false body s1 s' h2
        constructor
        · intro id hpa hci hc hs
          rw [primArgIds_func] at hpa
          rw [callIds_func] at hci
          simp only [List.mem_append, not_or] at hpa hci
          have k1 := H1.1 id hpa.1 hci.1 hc hs
          exact H2.1 id hpa.2 hci.2 k1.1 k1.2
        · intro v hv2
          rcases H2.2 v hv2 with h | h
          · rcases H1.2 v h with h2v | h2v
            · exact Or.inl h2v
            · right
              rw [primParamIds_func]
              exact List.mem_append_right _ (List.mem_append_left _ h2v)
          · right
            rw [primParamIds_func]
            exact List.mem_append_right _ (List.mem_append_right _ h)
  | call cid op args attrs ty vd =>
    rw [visitE_call] at hok
    by_cases hv : cid ∈ s.visited
    · rw [if_pos hv] at hok
      cases hok
      exact ⟨fun id _ _ hc hs => ⟨hc, hs⟩, fun v hv2 => Or.inl hv2⟩
    · rw [if_neg hv] at hok
      unfold visitCall at hok
      obtain ⟨s3, hop, hrest⟩ := bindE_ok _ _ _ hok
      obtain ⟨s5, hargs, hret⟩ := bindE_ok _ _ _ hrest
      have hs5 : retractArgs args s5 = s' := by
        injection hret
      subst hs5
      have HOP := visitOp_inv cid op args ty vd _ s3 hop
      have HA := visitArgs_inv args _ s5 hargs
      have HR := retractArgs_inv args s5
      constructor
      · intro id hpa hci hc hs
        rw [primArgIds_call_eq] at hpa
        rw [callIds_call] at hci
        simp only [List.mem_append, not_or, List.mem_cons] at hpa hci
        have k0 := HOP.1 id hpa.2.1 hci.2.1 hpa.1 hci.1 hc hs
        have k1 := HA.1 id hpa.2.2 hci.2.2 k0.1 k0.2
        refine ⟨?_, HR.2.2.2.2 id k1.2⟩
        rw [HR.1]
        exact k1.1
      · intro v hv2
        rw [HR.2.1] at hv2
        rcases HA.2 v hv2 with h | h
        · rcases HOP.2 v h with h2v | h2v
          · exact Or.inl h2v
          · right
            rw [primParamIds_call]
            exact List.mem_append_left _ h2v
        · right
          rw [primParamIds_call]
          exact List.mem_append_right _ h
termination_by sizeOf e

/-- The operator phase of a call preserves the invariant: it touches the
consumer table only at the call arguments, the storage table only at the
call id, and extends the bindings only with the callee's formal-parameter
ids. -/
theorem visitOp_inv (callId : Nat) (op : Expr) (args : ExprList) (ty : Ty)
    (vd : VirtualDevice) (s s' : SIState)
    (hok : visitCallOpPhase callId op args ty vd s = .ok s') :
    (∀ id, id ∉ primArgIds op → id ∉ callIds op → id ∉ primOpArgIds op args →
        id ≠ callId →
        lookupA s.consumer id = Option.none → lookupA s.storage id = Option.none →
        lookupA s'.consumer id = Option.none ∧ lookupA s'.storage id = Option.none)
    ∧ (∀ v, v ∈ a2vVals s'.argsToVars →
        v ∈ a2vVals s.argsToVars ∨ v ∈ primParamIds op) := by
  cases op with
  | var oid oty ovd =>
    have hok2 : (Except.ok s : Except String SIState) = .ok s' := hok
    cases hok2
    exact ⟨fun id _ _ _ _ hc hs => ⟨hc, hs⟩, fun v hv => Or.inl hv⟩
  | const oid oty ovd =>
    have hok2 : (Except.ok s : Except String SIState) = .ok s' := hok
    cases hok2
    exact ⟨fun id _ _ _ _ hc hs => ⟨hc, hs⟩, fun v hv => Or.inl hv⟩
  | opref oid onm =>
    have hok2 : (Except.ok s : Except String SIState) = .ok s' := hok
    cases hok2
    exact ⟨fun id _ _ _ _ hc hs => ⟨hc, hs⟩, fun v hv => Or.inl hv⟩
  | call c2 o2 a2 at2 t2 v2 =>
    have hok2 : (Except.ok s : Except String SIState) = .ok s' := hok
    cases hok2
    exact ⟨fun id _ _ _ _ hc hs => ⟨hc, hs⟩, fun v hv => Or.inl hv⟩
  | func ffid fparams fbody fpr =>
    cases fpr with
    | false =>
      have hok2 : (Except.ok s : Except String SIState) = .ok s' := hok
      cases hok2
      exact ⟨fun id _ _ _ _ hc hs => ⟨hc, hs⟩, fun v hv => Or.inl hv⟩
    | true =>
      have hok2 : bindE
          (bindE (visitE false fbody { s with primitiveSupportsTexture := false })
            (fun sb => visitParams fparams sb))
          (fun s1 =>
            bindE (assignCallScope callId args fparams ty vd s1)
              (fun s2 => pushArgDemands callId args s2)) = .ok s' := hok
      obtain ⟨s1, hbp, hap⟩ := bindE_ok _ _ _ hok2
      obtain ⟨sb, hbody, hparams⟩ := bindE_ok _ _ _ hbp
      obtain ⟨s2, hassign, hpush⟩ := bindE_ok _ _ _ hap
      have H1 := visitE_inv false fbody _ sb hbody
      have H2 := visitParams_inv fparams sb s1 hparams
      have HA := assign_inv callId args fparams ty vd s1 s2 hassign
      have HPf := pushArgDemands_frame callId args s2 s' hpush
      constructor
      · intro id hpa hci hargsid hcid hc hs
        rw [primArgIds_func] at hpa
        rw [callIds_func] at hci
        simp only [List.mem_append, not_or] at hpa hci
        have hargsid2 : id ∉ argIdList args := hargsid
        have k1 := H1.1 id hpa.2 hci.2 hc hs
        have k2 := H2.1 id hpa.1 hci.1 k1.1 k1.2
        have kc2 : lookupA s2.consumer id = Option.none := by
          rw [HA.1]
          exact k2.1
        have ks2 : lookupA s2.storage id = Option.none := HA.2.2.1 id hcid k2.2
        refine ⟨?_, ?_⟩
        · rw [pushArgDemands_consumer_other callId args s2 s' hpush id hargsid2]
          exact kc2
        · rw [HPf.1]
          exact ks2
      · intro v hv
        rw [HPf.2.1] at hv
        rcases HA.2.2.2 v hv with h | h
        · rcases H2.2 v h with h2v | h2v
          · rcases H1.2 v h2v with h3v | h3v
            · exact Or.inl h3v
            · right
              rw [primParamIds_func]
              exact List.mem_append_right _ (List.mem_append_right _ h3v)
          · right
            rw [primParamIds_func]
            exact List.mem_append_right _ (List.mem_append_left _ h2v)
        · right
          rw [primParamIds_func]
          refine List.mem_append_left _ ?_
          rw [if_pos rfl]
          exact h
termination_by sizeOf op

/-- The invariant for the default traversal of an expression list. -/
theorem visitParams_inv (l : ExprList) (s s' : SIState)
    (hok : visitParams l s = .ok s') :
    (∀ id, id ∉ primArgIdsList l → id ∉ callIdsList l →
        lookupA s.consumer id = Option.none → lookupA s.storage id = Option.none →
        lookupA s'.consumer id = Option.none ∧ lookupA s'.storage id = Option.none)
    ∧ (∀ v, v ∈ a2vVals s'.argsToVars →
        v ∈ a2vVals s.argsToVars ∨ v ∈ primParamIdsList l) := by
  cases l with
  | nil =>
    have hok2 : (Except.ok s : Except String SIState) = .ok s' := hok
    cases hok2
    exact ⟨fun id _ _ hc hs => ⟨hc, hs⟩, fun v hv => Or.inl hv⟩
  | cons p rest =>
    have hok2 : bindE (visitE false p s) (fun s1 => visitParams rest s1) = .ok s' := hok
    obtain ⟨s1, h1, h2⟩ := bindE_ok _ _ _ hok2
    have H1 := visitE_inv false p s s1 h1
    have H2 := visitParams_inv rest s1 s' h2
    constructor
    · intro id hpa hci hc hs
      rw [primArgIdsList_cons] at hpa
      rw [callIdsList_cons] at hci
      simp only [List.mem_append, not_or] at hpa hci
      have k1 := H1.1 id hpa.1 hci.1 hc hs
      exact H2.1 id hpa.2 hci.2 k1.1 k1.2
    · intro v hv
      rcases H2.2 v hv with h | h
      · rcases H1.2 v h with h2v | h2v
        · exact Or.inl h2v
        · right
          rw [primParamIdsList_cons]
          exact List.mem_append_left _ h2v
      · right
        rw [primParamIdsList_cons]
        exact List.mem_append_right _ h
termination_by sizeOf l

/-- The invariant for the argument loop of a call (which runs the custom
`Visit` on each argument). -/
theorem visitArgs_inv (l : ExprList) (s s' : SIState)
    (hok : visitArgs l s = .ok s') :
    (∀ id, id ∉ primArgIdsList l → id ∉ callIdsList l →
        lookupA s.consumer id = Option.none → lookupA s.storage id = Option.none →
        lookupA s'.consumer id = Option.none ∧ lookupA s'.storage id = Option.none)
    ∧ (∀ v, v ∈ a2vVals s'.argsToVars →
        v ∈ a2vVals s.argsToVars ∨ v ∈ primParamIdsList l) := by
  cases l with
  | nil =>
    have hok2 : (Except.ok s : Except String SIState) = .ok s' := hok
    cases hok2
    exact ⟨fun id _ _ hc hs => ⟨hc, hs⟩, fun v hv => Or.inl hv⟩
  | cons a rest =>
    have hok2 : bindE (visitE true a s) (fun s1 => visitArgs rest s1) = .ok s' := hok
    obtain ⟨s1, h1, h2⟩ := bindE_ok _ _ _ hok2
    have H1 := visitE_inv true a s s1 h1
    have H2 := visitArgs_inv rest s1 s' h2
    constructor
    · intro id hpa hci hc hs
      rw [primArgIdsList_cons] at hpa
      rw [callIdsList_cons] at hci
      simp only [List.mem_append, not_or] at hpa hci
      have k1 := H1.1 id hpa.1 hci.1 hc hs
      exact H2.1 id hpa.2 hci.2 k1.1 k1.2
    · intro v hv
      rcases H2.2 v hv with h | h
      · rcases H1.2 v h with h2v | h2v
        · exact Or.inl h2v
        · right
          rw [primParamIdsList_cons]
          exact List.mem_append_left _ h2v
      · right
        rw [primParamIdsList_cons]
        exact List.mem_append_right _ h
termination_by sizeOf l

end

/-- C10 (counterexample to the original claim): node 1 of the scenario-A
graph is a reference consumed only by a call whose operator is a bare
operator (it is the primitive function's formal parameter, fed to the inner
`conv2d` call whose operator is an `OpNode`): it is not an argument of any
primitive-function call, the traversal records no consumer demand for it
and gives it no scope from the leaf rule — yet it DOES appear in the final
scope map, because the `args_to_vars_` propagation loop of `GetStorageMap`
copies its binding argument's scope onto it.  This refutes "never appears
in the final scope map". -/
theorem C10_counterexample :
    1 ∉ primArgIds scenarioA
    ∧ Except.map (fun s => (lookupA s.consumer 1, lookupA s.storage 1))
        (visitExpr scenarioA {}) = .ok (Option.none, Option.none)
    ∧ GetStorageMap scenarioA = .ok scenarioAMap
    ∧ lookupA scenarioAMap 1 = some ["global.texture"] := by
  refine ⟨by decide, ?_, ?_, by decide⟩
  · rw [scenarioA_state]
    decide
  · unfold GetStorageMap
    rw [scenarioA_state]
    decide

/-- C10 (amended): consumer-demand entries are recorded only for the
arguments of call nodes whose operator is an inlined function carrying the
primitive attribute; an id that is not such an argument, not a call output,
and not a primitive formal parameter has no recorded demand after the
traversal, acquires no candidate scope from the leaf rule, and is absent
from the final storage-scope map.  (Primitive formal parameters must be
excluded: they carry no demand and no leaf-rule scope either, but the
`args_to_vars_` propagation loop can still install them in the final map,
as the counterexample shows.) -/
theorem C10_demand_only_prim_args (g : Expr) (id : Nat)
    (hpa : id ∉ primArgIds g) (hci : id ∉ callIds g) (hpp : id ∉ primParamIds g) :
    (∀ s, visitExpr g {} = .ok s →
        lookupA s.consumer id = Option.none ∧ lookupA s.storage id = Option.none)
    ∧ (∀ m, GetStorageMap g = .ok m → lookupA m id = Option.none) := by
  have hvis : ∀ s, visitExpr g {} = .ok s →
      lookupA s.consumer id = Option.none ∧ lookupA s.storage id = Option.none := by
    intro s hs
    exact (visitE_inv false g {} s hs).1 id hpa hci rfl rfl
  refine ⟨hvis, ?_⟩
  intro m hm
  unfold GetStorageMap at hm
  rcases hv : visitExpr g {} with msg | s <;> simp only [hv] at hm
  · cases hm
  · have hcs := hvis s hv
    rcases hleg : LegalizeProducerStorage s.consumer s.storage with msg | storage <;>
      simp only [hleg] at hm
    · cases hm
    · cases hm
      have hstor : lookupA storage id = Option.none :=
        legalize_lookup_none s.consumer s.storage id hcs.2 storage hleg
      have hfill : lookupA (fillConsumerGlobals s.consumer storage) id = Option.none :=
        fill_lookup_none s.consumer id hcs.1 storage hstor
      have hvals : id ∉ a2vVals s.argsToVars := by
        intro hin
        rcases (visitE_inv false g {} s hv).2 id hin with h | h
        · exact absurd h (List.not_mem_nil id)
        · exact hpp h
      exact propagate_lookup_none s.argsToVars id hvals _ hfill

/-- Witness for C10: node id 7 appears nowhere in the scenario-A graph —
not as a primitive-call argument, a call output, or a primitive formal
parameter — so the final map has no entry for it. -/
theorem C10_demand_only_prim_args_witness :
    lookupA scenarioAMap 7 = Option.none :=
  (C10_demand_only_prim_args scenarioA 7 (by decide) (by decide) (by decide)).2
    scenarioAMap (by unfold GetStorageMap; rw [scenarioA_state]; decide)

/-! ## C9 — idempotence of the pass

The rewriter only substitutes the storage-scope text of a placement
descriptor, so a second run recomputes the same analysis (the analysis never
reads `memoryScope`) and re-attaches the same descriptors. -/

theorem withScope_self (vd : VirtualDevice) : withScope vd vd.memoryScope = vd := rfl

theorem withScope_withScope (vd : VirtualDevice) (a b : String) :
    withScope (withScope vd a) b = withScope vd b := rfl

/-- The fit evaluator never reads the descriptor's scope text. -/
theorem Scope_withScope (shape : List PrimExpr) (vd : VirtualDevice) (sc : String) :
    Scope shape (withScope vd sc) = Scope shape vd := rfl

/-- Neither does the leaf rule. -/
theorem apply_withScope (id : Nat) (ty : Ty) (vd : VirtualDevice) (sc : String)
    (s : SIState) :
    ApplyConsumerScopeToInputs id ty (withScope vd sc) s
      = ApplyConsumerScopeToInputs id ty vd s := rfl

theorem rewriteExpr_var (m : List (Nat × List String)) (id : Nat) (ty : Ty)
    (vd : VirtualDevice) :
    rewriteExpr m (.var id ty vd) =
      (match lookupA m id with
       | some scopes =>
         if scopes.headD "" ≠ "global" then Expr.var id ty (withScope vd (scopes.headD ""))
         else .var id ty vd
       | Option.none => .var id ty vd) := rfl

theorem rewriteExpr_const (m : List (Nat × List String)) (id : Nat) (ty : Ty)
    (vd : VirtualDevice) :
    rewriteExpr m (.const id ty vd) =
      (match lookupA m id with
       | some scopes => Expr.const id ty (withScope vd (scopes.headD ""))
       | Option.none => .const id ty vd) := rfl

theorem rewriteExpr_opref (m : List (Nat × List String)) (id : Nat) (n : String) :
    rewriteExpr m (.opref id n) = .opref id n := rfl

theorem rewriteExpr_func (m : List (Nat × List String)) (id : Nat) (params : ExprList)
    (body : Expr) (primAttr : Bool) :
    rewriteExpr m (.func id params body primAttr) =
      .func id (rewriteList m params) (rewriteExpr m body) primAttr := rfl

theorem rewriteExpr_call (m : List (Nat × List String)) (id : Nat) (op : Expr)
    (args : ExprList) (attrs : CallAttrs) (ty : Ty) (vd : VirtualDevice) :
    rewriteExpr m (.call id op args attrs ty vd) =
      (let memoryScope : String :=
        match lookupA m id with
        | some scopes => scopes.headD ""
        | Option.none => if vd.memoryScope ≠ "" then vd.memoryScope else ""
      if memoryScope ≠ "" then
        Expr.call id (rewriteExpr m op) (rewriteList m args) attrs ty (withScope vd memoryScope)
      else .call id (rewriteExpr m op) (rewriteList m args) attrs ty vd) := rfl

theorem rewriteList_nil (m : List (Nat × List String)) : rewriteList m .nil = .nil := rfl

theorem rewriteList_cons (m : List (Nat × List String)) (e : Expr) (rest : ExprList) :
    rewriteList m (.cons e rest) = .cons (rewriteExpr m e) (rewriteList m rest) := rfl

/-- Rewriting a reference yields a reference with the same id and type and a
descriptor differing at most in its scope text. -/
theorem rewriteVar_shape (m : List (Nat × List String)) (id : Nat) (ty : Ty)
    (vd : VirtualDevice) :
    ∃ sc, rewriteExpr m (.var id ty vd) = .var id ty (withScope vd sc) := by
  rcases h : lookupA m id with _ | scopes
  · exact ⟨vd.memoryScope, by simp only [rewriteExpr_var, h, withScope_self]⟩
  · by_cases hg : scopes.headD "" ≠ "global"
    · exact ⟨scopes.headD "", by simp only [rewriteExpr_var, h]; rw [if_pos hg]⟩
    · exact ⟨vd.memoryScope, by simp only [rewriteExpr_var, h, withScope_self]; rw [if_neg hg]⟩

/-- Rewriting a literal yields a literal with the same id and type and a
descriptor differing at most in its scope text. -/
theorem rewriteConst_shape (m : List (Nat × List String)) (id : Nat) (ty : Ty)
    (vd : VirtualDevice) :
    ∃ sc, rewriteExpr m (.const id ty vd) = .const id ty (withScope vd sc) := by
  rcases h : lookupA m id with _ | scopes
  · exact ⟨vd.memoryScope, by simp only [rewriteExpr_const, h, withScope_self]⟩
  · exact ⟨scopes.headD "", by simp only [rewriteExpr_const, h]⟩

/-- Rewriting a call yields a call with the same id, attributes and type,
rewritten operator and arguments, and a descriptor differing at most in its
scope text. -/
theorem rewriteCall_shape (m : List (Nat × List String)) (id : Nat) (op : Expr)
    (args : ExprList) (attrs : CallAttrs) (ty : Ty) (vd : VirtualDevice) :
    ∃ sc, rewriteExpr m (.call id op args attrs ty vd) =
      .call id (rewriteExpr m op) (rewriteList m args) attrs ty (withScope vd sc) := by
  rcases h : lookupA m id with _ | scopes
  · by_cases hms : vd.memoryScope ≠ ""
    · exact ⟨vd.memoryScope, by simp only [rewriteExpr_call, h, if_pos hms]⟩
    · refine ⟨vd.memoryScope, ?_⟩
      simp only [rewriteExpr_call, h, if_neg hms, withScope_self]
      rw [if_neg (show ¬(("" : String) ≠ "") from fun hcon => hcon rfl)]
  · by_cases hsc : scopes.headD "" ≠ ""
    · exact ⟨scopes.headD "", by simp only [rewriteExpr_call, h]; rw [if_pos hsc]⟩
    · refine ⟨vd.memoryScope, ?_⟩
      simp only [rewriteExpr_call, h, withScope_self]
      rw [if_neg hsc]

/-- The rewriter preserves node identity. -/
theorem rewriteExpr_nodeId (m : List (Nat × List String)) (e : Expr) :
    (rewriteExpr m e).nodeId = e.nodeId := by
  cases e with
  | var id ty vd =>
    obtain ⟨sc, hsc⟩ := rewriteVar_shape m id ty vd
    rw [hsc]
    rfl
  | const id ty vd =>
    obtain ⟨sc, hsc⟩ := rewriteConst_shape m id ty vd
    rw [hsc]
    rfl
  | opref id n => rfl
  | func id params body primAttr => rfl
  | call id op args attrs ty vd =>
    obtain ⟨sc, hsc⟩ := rewriteCall_shape m id op args attrs ty vd
    rw [hsc]
    rfl

/-- Congruence of visitor sequencing in its continuation. -/
theorem bindE_congr (x : Except String SIState) (f g : SIState → Except String SIState)
    (h : ∀ s, f s = g s) : bindE x f = bindE x g := by
  cases x with
  | error msg => rfl
  | ok s => exact h s

/-- The binding loop only reads node ids, which the rewriter preserves. -/
theorem recordArgsToVars_rw (m : List (Nat × List String)) :
    ∀ (args params : ExprList) (a2v : List (Nat × List Nat)),
      recordArgsToVars a2v (rewriteList m args) (rewriteList m params)
        = recordArgsToVars a2v args params
  | .cons a args2, .cons p params2, a2v => by
    show recordArgsToVars (pushA a2v (rewriteExpr m a).nodeId (rewriteExpr m p).nodeId)
        (rewriteList m args2) (rewriteList m params2)
      = recordArgsToVars (pushA a2v a.nodeId p.nodeId) args2 params2
    rw [rewriteExpr_nodeId, rewriteExpr_nodeId]
    exact recordArgsToVars_rw m args2 params2 _
  | .nil, .nil, a2v => rfl
  | .nil, .cons _ _, a2v => rfl
  | .cons _ _, .nil, a2v => rfl

/-- The demand loop only reads argument ids. -/
theorem pushArgDemands_rw (m : List (Nat × List String)) (callId : Nat) (args : ExprList) :
    ∀ s, pushArgDemands callId (rewriteList m args) s = pushArgDemands callId args s := by
  induction args using ExprList.inductionOn with
  | nil => intro s; rfl
  | cons a rest ih =>
    intro s
    rw [rewriteList_cons]
    simp only [pushArgDemands]
    rcases hls : lookupA s.storage callId with _ | scopes <;> simp only [hls]
    · rw [rewriteExpr_nodeId, ih]
    · by_cases hm2 : hasMixedList scopes = true
      · simp only [if_pos hm2]
      · simp only [if_neg hm2]
        rw [rewriteExpr_nodeId, ih]

/-- One retraction step is invariant under rewriting: node ids and shapes
(call-of-primitive-function) are preserved. -/
theorem retractOne_rw (m : List (Nat × List String)) (a : Expr) (s : SIState) :
    retractOne (rewriteExpr m a) s = retractOne a s := by
  cases a with
  | var id ty vd =>
    obtain ⟨sc, hsc⟩ := rewriteVar_shape m id ty vd
    rw [hsc]
    rfl
  | const id ty vd =>
    obtain ⟨sc, hsc⟩ := rewriteConst_shape m id ty vd
    rw [hsc]
    rfl
  | opref id n => rfl
  | func id params body primAttr => rfl
  | call id op args attrs ty vd =>
    obtain ⟨sc, hsc⟩ := rewriteCall_shape m id op args attrs ty vd
    rw [hsc]
    cases op with
    | var oid oty ovd =>
      obtain ⟨sc2, hsc2⟩ := rewriteVar_shape m oid oty ovd
      rw [hsc2]
      rfl
    | const oid oty ovd =>
      obtain ⟨sc2, hsc2⟩ := rewriteConst_shape m oid oty ovd
      rw [hsc2]
      rfl
    | opref oid onm => rfl
    | func ofid oparams obody opr =>
      rw [rewriteExpr_func]
      simp only [retractOne, rewriteExpr_nodeId]
      rfl
    | call c2 o2 a2 at2 t2 v2 =>
      obtain ⟨sc2, hsc2⟩ := rewriteCall_shape m c2 o2 a2 at2 t2 v2
      rw [hsc2]
      rfl

/-- The retraction loop is invariant under rewriting. -/
theorem retractArgs_rw (m : List (Nat × List String)) (args : ExprList) :
    ∀ s, retractArgs (rewriteList m args) s = retractArgs args s := by
  induction args using ExprList.inductionOn with
  | nil => intro s; rfl
  | cons a rest ih =>
    intro s
    rw [rewriteList_cons]
    show retractArgs (rewriteList m rest) (retractOne (rewriteExpr m a) s)
      = retractArgs rest (retractOne a s)
    rw [retractOne_rw, ih]

/-- The candidate-assignment step is invariant under rewriting: it reads
node ids, the result type and the descriptor only through the fit
evaluator. -/
theorem assign_rw (m : List (Nat × List String)) (cid : Nat) (args params : ExprList)
    (ty : Ty) (vd : VirtualDevice) (sc : String) :
    ∀ s, assignCallScope cid (rewriteList m args) (rewriteList m params) ty
        (withScope vd sc) s
      = assignCallScope cid args params ty vd s := by
  intro s
  simp only [assignCallScope, Scope_withScope, recordArgsToVars_rw]

theorem cvdE_var (b : Bool) (id : Nat) (ty : Ty) (vd : VirtualDevice) (acc : List String) :
    cvdE b (.var id ty vd) acc = acc := by
  cases b <;> rfl

theorem cvdE_const (b : Bool) (id : Nat) (ty : Ty) (vd : VirtualDevice)
    (acc : List String) : cvdE b (.const id ty vd) acc = acc := by
  cases b <;> rfl

theorem cvdE_opref (b : Bool) (id : Nat) (n : String) (acc : List String) :
    cvdE b (.opref id n) acc = acc := by
  cases b <;> rfl

theorem cvdE_func_true (id : Nat) (params : ExprList) (body : Expr) (pr : Bool)
    (acc : List String) :
    cvdE true (.func id params body pr) acc = cvdList params (cvdE false body acc) := rfl

theorem cvdE_func_false (id : Nat) (params : ExprList) (body : Expr) (pr : Bool)
    (acc : List String) :
    cvdE false (.func id params body pr) acc = cvdE false body (cvdList params acc) := rfl

theorem cvdE_call (b : Bool) (id : Nat) (op : Expr) (args : ExprList) (attrs : CallAttrs)
    (ty : Ty) (vd : VirtualDevice) (acc : List String) :
    cvdE b (.call id op args attrs ty vd) acc =
      cvdArgs args
        (if vd.fullyUnconstrained = false then
          match vd.target.device with
          | some d => insertSorted acc (vd.target.kindName ++ "." ++ d)
          | Option.none => acc
        else acc) := by
  cases b <;> rfl

theorem cvdList_cons (p : Expr) (rest : ExprList) (acc : List String) :
    cvdList (.cons p rest) acc = cvdList rest (cvdE false p acc) := rfl

theorem cvdArgs_cons (a : Expr) (rest : ExprList) (acc : List String) :
    cvdArgs (.cons a rest) acc = cvdArgs rest (cvdE true a acc) := rfl

mutual

/-- Device enumeration is invariant under the rewriter: only call
descriptors' targets are read, and the rewriter preserves them. -/
theorem cvdE_rw (m : List (Nat × List String)) (b : Bool) (e : Expr) :
    ∀ acc, cvdE b (rewriteExpr m e) acc = cvdE b e acc := by
  cases e with
  | var id ty vd =>
    intro acc
    obtain ⟨sc, hsc⟩ := rewriteVar_shape m id ty vd
    rw [hsc, cvdE_var, cvdE_var]
  | const id ty vd =>
    intro acc
    obtain ⟨sc, hsc⟩ := rewriteConst_shape m id ty vd
    rw [hsc, cvdE_const, cvdE_const]
  | opref id n =>
    intro acc
    rw [rewriteExpr_opref]
  | func fid params body pr =>
    intro acc
    rw [rewriteExpr_func]
    cases b with
    | true =>
      rw [cvdE_func_true, cvdE_func_true, cvdE_rw m false body acc]
      exact cvdList_rw m params _
    | false =>
      rw [cvdE_func_false, cvdE_func_false, cvdList_rw m params acc]
      exact cvdE_rw m false body _
  | call cid op args attrs ty vd =>
    intro acc
    obtain ⟨sc, hsc⟩ := rewriteCall_shape m cid op args attrs ty vd
    rw [hsc, cvdE_call, cvdE_call]
    exact cvdArgs_rw m args _
termination_by sizeOf e

theorem cvdList_rw (m : List (Nat × List String)) (l : ExprList) :
    ∀ acc, cvdList (rewriteList m l) acc = cvdList l acc := by
  cases l with
  | nil => intro acc; rfl
  | cons p rest =>
    intro acc
    rw [rewriteList_cons, cvdList_cons, cvdList_cons, cvdE_rw m false p acc]
    exact cvdList_rw m rest _
termination_by sizeOf l

theorem cvdArgs_rw (m : List (Nat × List String)) (l : ExprList) :
    ∀ acc, cvdArgs (rewriteList m l) acc = cvdArgs l acc := by
  cases l with
  | nil => intro acc; rfl
  | cons a rest =>
    intro acc
    rw [rewriteList_cons, cvdArgs_cons, cvdArgs_cons, cvdE_rw m true a acc]
    exact cvdArgs_rw m rest _
termination_by sizeOf l

end

/-- The registry lookup key is invariant under the rewriter. -/
theorem dispatchKey_rw (m : List (Nat × List String)) (e : Expr) :
    dispatchKey (rewriteExpr m e) = dispatchKey e := by
  unfold dispatchKey GetDevices
  rw [cvdE_rw m false e]

theorem visitParams_cons (p : Expr) (rest : ExprList) (s : SIState) :
    visitParams (.cons p rest) s =
      bindE (visitE false p s) (fun s1 => visitParams rest s1) := rfl

theorem visitArgs_cons (a : Expr) (rest : ExprList) (s : SIState) :
    visitArgs (.cons a rest) s =
      bindE (visitE true a s) (fun s1 => visitArgs rest s1) := rfl

mutual

/-- The whole forward analysis is invariant under the rewriter: it reads
node ids, types, attributes and the descriptor fields other than the scope
text, all of which the rewriter preserves. -/
theorem visitE_rw (m : List (Nat × List String)) (b : Bool) (e : Expr) :
    ∀ s, visitE b (rewriteExpr m e) s = visitE b e s := by
  cases e with
  | var id ty vd =>
    intro s
    obtain ⟨sc, hsc⟩ := rewriteVar_shape m id ty vd
    rw [hsc, visitE_var, visitE_var, apply_withScope]
  | const id ty vd =>
    intro s
    obtain ⟨sc, hsc⟩ := rewriteConst_shape m id ty vd
    rw [hsc, visitE_const, visitE_const, apply_withScope]
  | opref id n =>
    intro s
    rw [rewriteExpr_opref]
  | func fid params body pr =>
    intro s
    rw [rewriteExpr_func]
    cases b with
    | true =>
      rw [visitE_func_true, visitE_func_true, visitE_rw m false body s]
      exact bindE_congr _ _ _ (fun s1 => visitParams_rw m params s1)
    | false =>
      rw [visitE_func_false, visitE_func_false]
      by_cases hv : fid ∈ s.visited
      · rw [if_pos hv, if_pos hv]
      · rw [if_neg hv, if_neg hv, visitParams_rw m params]
        exact bindE_congr _ _ _ (fun s1 => visitE_rw m false body s1)
  | call cid op args attrs ty vd =>
    intro s
    obtain ⟨sc, hsc⟩ := rewriteCall_shape m cid op args attrs ty vd
    rw [hsc, visitE_call, visitE_call]
    by_cases hv : cid ∈ s.visited
    · rw [if_pos hv, if_pos hv]
    · rw [if_neg hv, if_neg hv]
      unfold visitCall
      rw [visitOp_rw m cid op args ty vd sc]
      refine bindE_congr _ _ _ (fun s3 => ?_)
      rw [visitArgs_rw m args]
      exact bindE_congr _ _ _ (fun s5 => by rw [retractArgs_rw m args s5])
termination_by 3 * sizeOf e

/-- The operator phase is invariant under the rewriter. -/
theorem visitOp_rw (m : List (Nat × List String)) (cid : Nat) (op : Expr)
    (args : ExprList) (ty : Ty) (vd : VirtualDevice) (sc : String) :
    ∀ s, visitCallOpPhase cid (rewriteExpr m op) (rewriteList m args) ty
        (withScope vd sc) s
      = visitCallOpPhase cid op args ty vd s := by
  cases op with
  | var oid oty ovd =>
    intro s
    obtain ⟨sc2, hsc2⟩ := rewriteVar_shape m oid oty ovd
    rw [hsc2]
    rfl
  | const oid oty ovd =>
    intro s
    obtain ⟨sc2, hsc2⟩ := rewriteConst_shape m oid oty ovd
    rw [hsc2]
    rfl
  | opref oid onm =>
    intro s
    rw [rewriteExpr_opref]
    rfl
  | call c2 o2 a2 at2 t2 v2 =>
    intro s
    obtain ⟨sc2, hsc2⟩ := rewriteCall_shape m c2 o2 a2 at2 t2 v2
    rw [hsc2]
    rfl
  | func ofid oparams obody opr =>
    intro s
    rw [rewriteExpr_func]
    cases opr with
    | false => rfl
    | true =>
      show bindE
          (bindE (visitE false (rewriteExpr m obody)
              { s with primitiveSupportsTexture := false })
            (fun sb => visitParams (rewriteList m oparams) sb))
          (fun s1 =>
            bindE (assignCallScope cid (rewriteList m args) (rewriteList m oparams) ty
                (withScope vd sc) s1)
              (fun s2 => pushArgDemands cid (rewriteList m args) s2))
        = bindE
          (bindE (visitE false obody { s with primitiveSupportsTexture := false })
            (fun sb => visitParams oparams sb))
          (fun s1 =>
            bindE (assignCallScope cid args oparams ty vd s1)
              (fun s2 => pushArgDemands cid args s2))
      rw [visitE_rw m false obody]
      have h1 : bindE (visitE false obody { s with primitiveSupportsTexture := false })
          (fun sb => visitParams (rewriteList m oparams) sb)
        = bindE (visitE false obody { s with primitiveSupportsTexture := false })
          (fun sb => visitParams oparams sb) :=
        bindE_congr _ _ _ (fun sb => visitParams_rw m oparams sb)
      rw [h1]
      refine bindE_congr _ _ _ (fun s1 => ?_)
      rw [assign_rw m cid args oparams ty vd sc s1]
      exact bindE_congr _ _ _ (fun s2 => pushArgDemands_rw m cid args s2)
termination_by 3 * (sizeOf op + sizeOf args) + 1

/-- The default list traversal is invariant under the rewriter. -/
theorem visitParams_rw (m : List (Nat × List String)) (l : ExprList) :
    ∀ s, visitParams (rewriteList m l) s = visitParams l s := by
  cases l with
  | nil => intro s; rfl
  | cons p rest =>
    intro s
    rw [rewriteList_cons, visitParams_cons, visitParams_cons, visitE_rw m false p s]
    exact bindE_congr _ _ _ (fun s1 => visitParams_rw m rest s1)
termination_by 3 * sizeOf l

/-- The argument loop is invariant under the rewriter. -/
theorem visitArgs_rw (m : List (Nat × List String)) (l : ExprList) :
    ∀ s, visitArgs (rewriteList m l) s = visitArgs l s := by
  cases l with
  | nil => intro s; rfl
  | cons a rest =>
    intro s
    rw [rewriteList_cons, visitArgs_cons, visitArgs_cons, visitE_rw m true a s]
    exact bindE_congr _ _ _ (fun s1 => visitArgs_rw m rest s1)
termination_by 3 * sizeOf l

end

/-- The analysis result is invariant under the rewriter. -/
theorem GetStorageMap_rw (m : List (Nat × List String)) (e : Expr) :
    GetStorageMap (rewriteExpr m e) = GetStorageMap e := by
  unfold GetStorageMap
  rw [show visitExpr (rewriteExpr m e) {} = visitExpr e {} from visitE_rw m false e {}]

mutual

/-- The rewriter is idempotent: re-attaching the same scope text to an
already-updated descriptor changes nothing. -/
theorem rewriteExpr_idem (m : List (Nat × List String)) (e : Expr) :
    rewriteExpr m (rewriteExpr m e) = rewriteExpr m e := by
  cases e with
  | var id ty vd =>
    rcases h : lookupA m id with _ | scopes
    · simp only [rewriteExpr_var, h]
    · by_cases hg : scopes.headD "" ≠ "global"
      · simp only [rewriteExpr_var, h, if_pos hg]
        rfl
      · simp only [rewriteExpr_var, h, if_neg hg]
  | const id ty vd =>
    rcases h : lookupA m id with _ | scopes
    · simp only [rewriteExpr_const, h]
    · simp only [rewriteExpr_const, h]
      rfl
  | opref id n => rfl
  | func fid params body pr =>
    rw [rewriteExpr_func, rewriteExpr_func, rewriteExpr_idem m body,
      rewriteList_idem m params]
  | call cid op args attrs ty vd =>
    rcases h : lookupA m cid with _ | scopes
    · by_cases hms : vd.memoryScope ≠ ""
      · simp only [rewriteExpr_call, h, if_pos hms, withScope_self]
        rw [rewriteExpr_idem m op, rewriteList_idem m args]
      · simp only [rewriteExpr_call, h, if_neg hms,
          if_neg (show ¬(("" : String) ≠ "") from fun hcon => hcon rfl)]
        rw [rewriteExpr_idem m op, rewriteList_idem m args]
    · by_cases hsc : scopes.headD "" ≠ ""
      · simp only [rewriteExpr_call, h, if_pos hsc, withScope_withScope]
        rw [rewriteExpr_idem m op, rewriteList_idem m args]
      · simp only [rewriteExpr_call, h, if_neg hsc]
        rw [rewriteExpr_idem m op, rewriteList_idem m args]
termination_by sizeOf e

theorem rewriteList_idem (m : List (Nat × List String)) (l : ExprList) :
    rewriteList m (rewriteList m l) = rewriteList m l := by
  cases l with
  | nil => rfl
  | cons e rest =>
    rw [rewriteList_cons, rewriteList_cons, rewriteExpr_idem m e, rewriteList_idem m rest]
termination_by sizeOf l

end

/-- C9: running the annotate-memory-scope pass a second time on its own
output, with the same backend registry and no change in demand, yields the
first output unchanged — no node's storage scope oscillates. -/
theorem C9_idempotent (e e2 : Expr)
    (h : AnnotateMemoryScopeExpr registryAdreno e = .ok e2) :
    AnnotateMemoryScopeExpr registryAdreno e2 = .ok e2 := by
  unfold AnnotateMemoryScopeExpr at h
  rcases hc : CollectStorageInfo registryAdreno e with msg | m <;> simp only [hc] at h
  · cases h
  · by_cases hlen : m.length ≠ 0
    · rw [if_pos hlen] at h
      cases h
      have hc2 : CollectStorageInfo registryAdreno (rewriteExpr m e) = .ok m := by
        unfold CollectStorageInfo at hc ⊢
        rw [dispatchKey_rw m e]
        rcases hreg : registryAdreno (dispatchKey e) with _ | f <;>
          simp only [hreg] at hc ⊢
        · exact hc
        · have hf : f = CollectTextureStorage := by
            unfold registryAdreno at hreg
            by_cases hk : dispatchKey e
                = "relay.backend.opencl.adreno._CollectStorageInfo"
            · rw [if_pos hk] at hreg
              cases hreg
              rfl
            · rw [if_neg hk] at hreg
              cases hreg
          subst hf
          show CollectTextureStorage (rewriteExpr m e) = .ok m
          unfold CollectTextureStorage at hc ⊢
          rw [GetStorageMap_rw m e]
          exact hc
      unfold AnnotateMemoryScopeExpr
      simp only [hc2]
      rw [if_pos hlen, rewriteExpr_idem m e]
    · rw [if_neg hlen] at h
      cases h
      unfold AnnotateMemoryScopeExpr
      simp only [hc]
      rw [if_neg hlen]

/-- Witness for C9: the pass on the scenario-A graph yields the rewritten
graph, and a second run returns it unchanged. -/
theorem C9_idempotent_witness :
    AnnotateMemoryScopeExpr registryAdreno (rewriteExpr scenarioAMap scenarioA)
      = .ok (rewriteExpr scenarioAMap scenarioA) :=
  C9_idempotent scenarioA (rewriteExpr scenarioAMap scenarioA) (by
    have hc : CollectStorageInfo registryAdreno scenarioA = .ok scenarioAMap := by
      unfold CollectStorageInfo
      rw [show dispatchKey scenarioA
          = "relay.backend.opencl.adreno._CollectStorageInfo" from by decide]
      show CollectTextureStorage scenarioA = .ok scenarioAMap
      unfold CollectTextureStorage GetStorageMap
      rw [scenarioA_state]
      decide
    unfold AnnotateMemoryScopeExpr
    simp only [hc]
    rw [if_pos (by decide : scenarioAMap.length ≠ 0)])

end AnnotateTextureStorage
